import Mathlib

/-!
Verification of the `scraper/` crawler of the chatbot_system repository.

A shallow embedding: Python `str` is modelled as `List Char`; the
`urllib.parse` routines used by `scraper/utils.py` are embedded for the URL
shapes the crawler handles (percent-encoding/unquoting of reserved characters
is not modelled, since the crawler only feeds already-assembled URLs through
these helpers, and non-ASCII case folding is not modelled).  Network and
filesystem effects are threaded through an explicit environment of oracles
(`Env`) and an event trace, so that "performs one GET", "downloads", and
"fetches a page" are observable.  Fallible Python code (functions that can
raise) returns `Option`.
-/

namespace Crawler

/-- Python `str` is modelled as a list of characters. -/
abbrev Str := List Char

/-- ASCII lower-casing of one character, as Python `str.lower` acts on ASCII. -/
def lowerChar (c : Char) : Char :=
  if 65 ≤ c.toNat ∧ c.toNat ≤ 90 then Char.ofNat (c.toNat + 32) else c

/-- Python `str.lower` (ASCII fragment). -/
def pyLower (s : Str) : Str := s.map lowerChar

/-- Split at the first occurrence of character `c`: `some (before, after)`,
or `none` when `c` does not occur. -/
def splitFirst (c : Char) : Str → Option (Str × Str)
  | [] => none
  | x :: xs =>
    if x = c then some ([], xs)
    else (splitFirst c xs).map (fun p => (x :: p.1, p.2))

/-- Split at the last occurrence of character `c`. -/
def splitLast (c : Char) : Str → Option (Str × Str)
  | [] => none
  | x :: xs =>
    match splitLast c xs with
    | some (a, b) => some (x :: a, b)
    | none => if x = c then some ([], xs) else none

/-- Accumulator loop of `pySplitChar`. -/
def splitCharGo (c : Char) (acc : Str) : Str → List Str
  | [] => [acc.reverse]
  | x :: xs => if x = c then acc.reverse :: splitCharGo c [] xs else splitCharGo c (x :: acc) xs

/-- Python `str.split(c)` for a one-character separator (keeps empty pieces,
`"".split(c) = [""]`). -/
def pySplitChar (c : Char) (s : Str) : List Str := splitCharGo c [] s

/-- Python `c.join(pieces)` for a one-character separator. -/
def joinChar (c : Char) : List Str → Str
  | [] => []
  | [x] => x
  | x :: y :: ys => x ++ c :: joinChar c (y :: ys)

/-- Does `pre` start `s`?  (Python `str.startswith`.) -/
def startsWith : Str → Str → Bool
  | [], _ => true
  | _ :: _, [] => false
  | p :: ps, x :: xs => p = x && startsWith ps xs

/-- Does `suf` end `s`?  (Python `str.endswith`.) -/
def endsWith (suf s : Str) : Bool := startsWith suf.reverse s.reverse

/-- Does `needle` occur contiguously inside `s`?  (Python `needle in s`.) -/
def containsSub (needle : Str) : Str → Bool
  | [] => needle = []
  | x :: xs => startsWith needle (x :: xs) || containsSub needle xs

/-- Split at the first occurrence of the (nonempty) substring `sep`:
`some (before, after)`, or `none` when `sep` does not occur. -/
def splitFirstSub (sep : Str) : Str → Option (Str × Str)
  | [] => none
  | x :: xs =>
    if startsWith sep (x :: xs) then some ([], (x :: xs).drop sep.length)
    else (splitFirstSub sep xs).map (fun p => (x :: p.1, p.2))

/-- Python `str.rstrip(c)`: remove every trailing occurrence of `c`. -/
def rstripChar (c : Char) (s : Str) : Str := (s.reverse.dropWhile (· = c)).reverse

/-- Python `str.replace(a, b)` for one-character arguments. -/
def pyReplaceChar (a b : Char) (s : Str) : Str := s.map (fun c => if c = a then b else c)

/-- Python `str.strip()` (whitespace at both ends). -/
def pyStrip (s : Str) : Str :=
  ((s.dropWhile Char.isWhitespace).reverse.dropWhile Char.isWhitespace).reverse

/-- The decimal rendering of a natural number, as a model string. -/
def natToStr (n : Nat) : Str := (toString n).data

/-! ## `urllib.parse`: `urlparse` / `urlunparse` / `urljoin` -/

/-- The six components of `urllib.parse.ParseResult`. -/
structure UrlParts where
  scheme : Str
  netloc : Str
  path : Str
  params : Str
  query : Str
  fragment : Str
deriving DecidableEq

/-- Characters allowed in a URL scheme (`urllib.parse.scheme_chars`). -/
def isSchemeChar (c : Char) : Bool :=
  c.isAlpha || c.isDigit || c = '+' || c = '-' || c = '.'

/-- The scheme-splitting step of `urlsplit`: the text before the first `:` is
taken (lower-cased) as the scheme when it is a valid scheme token. -/
def splitScheme (url : Str) : Str × Str :=
  match splitFirst ':' url with
  | some (before, after) =>
    if before ≠ [] ∧ (before.headD ' ').isAlpha ∧ before.all isSchemeChar
    then (pyLower before, after) else ([], url)
  | none => ([], url)

/-- Characters that terminate the netloc in `urlsplit`. -/
def netlocDelim (c : Char) : Bool := c = '/' || c = '?' || c = '#'

/-- `urllib.parse.urlsplit`, returning `none` exactly when CPython raises
`ValueError` (mismatched square brackets in the netloc). -/
def pyUrlsplit (url : Str) : Option UrlParts :=
  let sr := splitScheme url
  let scheme := sr.1
  let rest := sr.2
  let nl : Str × Str × Bool :=
    if rest.take 2 = "//".data then
      let netloc := (rest.drop 2).takeWhile (fun c => ¬ netlocDelim c)
      let after := (rest.drop 2).dropWhile (fun c => ¬ netlocDelim c)
      (netloc, after, netloc.contains '[' == netloc.contains ']')
    else ([], rest, true)
  if nl.2.2 then
    let fr : Str × Str :=
      match splitFirst '#' nl.2.1 with
      | some (a, b) => (a, b)
      | none => (nl.2.1, [])
    let pq : Str × Str :=
      match splitFirst '?' fr.1 with
      | some (a, b) => (a, b)
      | none => (fr.1, [])
    some ⟨scheme, nl.1, pq.1, [], pq.2, fr.2⟩
  else none

/-- `urllib.parse._splitparams`: split `;parameters` off the last path
segment. -/
def pySplitparams (p : Str) : Str × Str :=
  match splitLast '/' p with
  | some (pre, seg) =>
    match splitFirst ';' seg with
    | some (a, b) => (pre ++ '/' :: a, b)
    | none => (p, [])
  | none =>
    match splitFirst ';' p with
    | some (a, b) => (a, b)
    | none => (p, [])

/-- `urllib.parse.urlparse` (`urlsplit` plus the params split), `none` when
CPython raises `ValueError`. -/
def pyUrlparse (url : Str) : Option UrlParts :=
  (pyUrlsplit url).map fun u =>
    if u.path.contains ';' then
      let pp := pySplitparams u.path
      { u with path := pp.1, params := pp.2 }
    else u

/-- `urllib.parse.urlunsplit`. -/
def pyUrlunsplit (scheme netloc path query fragment : Str) : Str :=
  let url :=
    if netloc ≠ [] ∨ (path ≠ [] ∧ path.take 2 = "//".data) then
      let p := if path ≠ [] ∧ path.take 1 ≠ "/".data then '/' :: path else path
      '/' :: '/' :: (netloc ++ p)
    else path
  let url := if scheme ≠ [] then scheme ++ ':' :: url else url
  let url := if query ≠ [] then url ++ '?' :: query else url
  if fragment ≠ [] then url ++ '#' :: fragment else url

/-- `urllib.parse.urlunparse`. -/
def pyUrlunparse (p : UrlParts) : Str :=
  let path := if p.params ≠ [] then p.path ++ ';' :: p.params else p.path
  pyUrlunsplit p.scheme p.netloc path p.query p.fragment

/-- Schemes that support relative references (`urllib.parse.uses_relative`). -/
def usesRelative : List Str :=
  ["", "ftp", "http", "gopher", "nntp", "imap", "wais", "file", "https",
   "shttp", "mms", "prospero", "rtsp", "rtspu", "sftp", "svn", "svn+ssh",
   "ws", "wss"].map String.data

/-- Schemes that use a netloc (`urllib.parse.uses_netloc`). -/
def usesNetloc : List Str :=
  ["", "ftp", "http", "gopher", "nntp", "telnet", "imap", "wais", "file",
   "mms", "https", "shttp", "snews", "prospero", "rtsp", "rtspu", "rsync",
   "svn", "svn+ssh", "sftp", "nfs", "git", "git+ssh", "ws", "wss",
   "itms-services"].map String.data

/-- `segments[1:-1] = filter(None, segments[1:-1])` on a split path. -/
def filterMiddle : List Str → List Str
  | [] => []
  | [x] => [x]
  | x :: xs => x :: ((xs.dropLast.filter (fun s => s ≠ [])) ++ xs.drop (xs.length - 1))

/-- The `..`/`.` resolution loop of `urljoin` (a pop on an empty stack is
silently ignored, as in CPython). -/
def resolveSegs (segs : List Str) : List Str :=
  segs.foldl
    (fun acc seg =>
      if seg = "..".data then acc.dropLast
      else if seg = ".".data then acc
      else acc ++ [seg]) []

/-- The tail of `urljoin` shared by the netloc and no-netloc cases. -/
def joinResolve (b : UrlParts) (scheme netloc path params query fragment : Str) : Str :=
  if path = [] ∧ params = [] then
    let query := if query = [] then b.query else query
    pyUrlunparse ⟨scheme, netloc, b.path, b.params, query, fragment⟩
  else
    let baseParts := pySplitChar '/' b.path
    let baseParts := if baseParts.getLastD [] ≠ [] then baseParts.dropLast else baseParts
    let segments :=
      if path.take 1 = "/".data then pySplitChar '/' path
      else filterMiddle (baseParts ++ pySplitChar '/' path)
    let lastSeg := segments.getLastD []
    let resolved := resolveSegs segments
    let resolved :=
      if lastSeg = ".".data ∨ lastSeg = "..".data then resolved ++ [[]] else resolved
    let joined := joinChar '/' resolved
    let path := if joined = [] then "/".data else joined
    pyUrlunparse ⟨scheme, netloc, path, params, query, fragment⟩

/-- `urllib.parse.urljoin`; `none` when an inner `urlparse` raises. -/
def pyUrljoin (base url : Str) : Option Str :=
  if base = [] then some url
  else if url = [] then some base
  else do
    let b ← pyUrlparse base
    let u ← pyUrlparse url
    let scheme := if u.scheme = [] then b.scheme else u.scheme
    if scheme ≠ b.scheme ∨ scheme ∉ usesRelative then pure url
    else if scheme ∈ usesNetloc ∧ u.netloc ≠ [] then
      pure (pyUrlunparse ⟨scheme, u.netloc, u.path, u.params, u.query, u.fragment⟩)
    else
      let netloc := if scheme ∈ usesNetloc then b.netloc else u.netloc
      pure (joinResolve b scheme netloc u.path u.params u.query u.fragment)

/-! ## `urllib.parse`: `parse_qsl`, `urlencode`, and Python `sorted` -/

/-- Python `+` to space translation done by `parse_qsl`'s unquoting. -/
def plusToSpace (s : Str) : Str := s.map (fun c => if c = '+' then ' ' else c)

/-- One `name=value` chunk of `parse_qsl` with the default
`keep_blank_values=False`: chunks without `=` or with an empty value are
dropped. -/
def parseQslChunk (chunk : Str) : Option (Str × Str) :=
  if chunk = [] then none
  else
    match splitFirst '=' chunk with
    | none => none
    | some (n, v) => if v = [] then none else some (plusToSpace n, plusToSpace v)

/-- `urllib.parse.parse_qsl` with default arguments (percent-unquoting is not
modelled). -/
def pyParseQsl (qs : Str) : List (Str × Str) :=
  (pySplitChar '&' qs).filterMap parseQslChunk

/-- The space-to-`+` translation of `quote_plus` (percent-encoding is not
modelled). -/
def quotePlus (s : Str) : Str := s.map (fun c => if c = ' ' then '+' else c)

/-- `urllib.parse.urlencode` on a pair list. -/
def pyUrlencode (pairs : List (Str × Str)) : Str :=
  joinChar '&' (pairs.map (fun kv => quotePlus kv.1 ++ '=' :: quotePlus kv.2))

/-- Strict lexicographic comparison of strings by code point, as Python
`<` on `str`. -/
def strLt : Str → Str → Bool
  | [], [] => false
  | [], _ :: _ => true
  | _ :: _, [] => false
  | a :: as, b :: bs => if a = b then strLt as bs else decide (a.toNat < b.toNat)

/-- Python `<` on pairs of strings (tuple comparison). -/
def pairLt (a b : Str × Str) : Bool :=
  strLt a.1 b.1 || (a.1 = b.1 && strLt a.2 b.2)

/-- Stable insertion of `x` into a sorted pair list: `x` goes in front of the
first element not strictly below it. -/
def insertPair (x : Str × Str) : List (Str × Str) → List (Str × Str)
  | [] => [x]
  | y :: ys => if pairLt y x then y :: insertPair x ys else x :: y :: ys

/-- Python `sorted` on a list of string pairs (stable, ordered by tuple
comparison). -/
def pySortPairs (l : List (Str × Str)) : List (Str × Str) := l.foldr insertPair []

/-! ## `scraper/utils.py` -/

/-- The tracking parameters dropped by `normalize_url`. -/
def IGNORE_PARAMS : List Str := ["utm_source", "utm_medium", "utm_campaign"].map String.data

/-- The `https` to `http` scheme collapse of `normalize_url` (line 85 of
`scraper/utils.py`). -/
def normSchemeOf (scheme : Str) : Str :=
  if scheme = "https".data then "http".data else scheme

/-- The part of `normalize_url` after the optional base join: parse the
lower-cased URL, collapse the scheme, strip trailing slashes, filter and sort
the query, and rebuild without params or fragment. -/
def normalizeAbsolute (url : Str) : Option Str :=
  (pyUrlparse (pyLower url)).map fun p =>
    let scheme := normSchemeOf p.scheme
    let path := rstripChar '/' p.path
    let queryParams := pyParseQsl p.query
    let filtered := queryParams.filter (fun kv => kv.1 ∉ IGNORE_PARAMS)
    let sortedQuery := pyUrlencode (pySortPairs filtered)
    pyUrlunparse ⟨scheme, p.netloc, path, [], sortedQuery, []⟩

/-- `scraper.utils.normalize_url`; `none` when an inner `urlparse` raises. -/
def normalize_url (url : Str) (base_url : Option Str := none) : Option Str := do
  let parsed ← pyUrlparse url
  match base_url with
  | some b =>
    if parsed.netloc = [] ∧ b ≠ [] then (pyUrljoin b url).bind normalizeAbsolute
    else normalizeAbsolute url
  | none => normalizeAbsolute url

/-- `scraper.utils.URLNameGenerator.get_name_from_url`, with the private
empty-path counter passed explicitly; `none` when `urlparse` raises. -/
def get_name_from_url (ctr : Nat) (url : Str) : Option (Str × Nat) := do
  let p ← pyUrlparse url
  let path := p.path
  if path = [] ∨ path = "/".data then
    pure ("default_name_".data ++ natToStr ctr, ctr + 1)
  else
    let path := if path.take 1 = "/".data then path.drop 1 else path
    let name := match splitLast '.' path with
      | some (a, _) => a
      | none => path
    pure (name, ctr)

/-- `scraper.utils.is_pdf_url`: `url.lower().endswith('.pdf')`. -/
def is_pdf_url (url : Str) : Bool := endsWith ".pdf".data (pyLower url)

/-- `scraper.utils.is_google_drive_url`: `"drive.google.com" in url`. -/
def is_google_drive_url (url : Str) : Bool := containsSub "drive.google.com".data url

/-- `scraper.utils.extract_google_drive_file_id`. -/
def extract_google_drive_file_id (url : Str) : Option Str :=
  if containsSub "file/d/".data url then
    match splitFirstSub "file/d/".data url with
    | some (_, rest) =>
      let seg := match splitFirstSub "file/d/".data rest with
        | some (a, _) => a
        | none => rest
      some (match splitFirst '/' seg with
        | some (a, _) => a
        | none => seg)
    | none => none
  else none

/-- `scraper.utils.google_drive_download_url`. -/
def google_drive_download_url (fid : Str) : Str :=
  "https://drive.google.com/uc?id=".data ++ fid

/-- `scraper.utils.is_college_url`: substring test of `nitj.ac.in` against the
netloc, returning `False` when `urlparse` raises. -/
def is_college_url (url : Str) : Bool :=
  match pyUrlparse url with
  | some p => containsSub "nitj.ac.in".data p.netloc
  | none => false

/-! ## Crawler state, environment oracles and observable events

Python dicts keep insertion order; they are modelled as association lists with
in-place update (`dictSet`).  Python sets are modelled as duplicate-free lists
in insertion order (`setAdd`).  Every outbound network action of
`controller.py` / `href_parser.py` is recorded as an `Event`:
`fetch_and_hash_content` performs one GET (`hashGet`), `can_fetch_content` one
HEAD (`headProbe`), `download_file` one GET (`downloadReq`), and
`driver.get` inside `__fetch_content` one page load (`pageFetch`). -/

/-- One observable network action of the crawler. -/
inductive Event
  | hashGet (url : Str)
  | headProbe (url : Str)
  | downloadReq (url : Str)
  | pageFetch (url : Str)
deriving DecidableEq

/-- The keys of an association list, in order. -/
def dictKeys (d : List (α × β)) : List α := d.map (·.1)

/-- The values of an association list, in order. -/
def dictValues (d : List (α × β)) : List β := d.map (·.2)

/-- Python `d[k] = v`: update in place when the key exists, append
otherwise. -/
def dictSet [DecidableEq α] (d : List (α × β)) (k : α) (v : β) : List (α × β) :=
  if k ∈ dictKeys d then d.map (fun kv => if kv.1 = k then (k, v) else kv)
  else d ++ [(k, v)]

/-- Python `s.add(x)` on a set modelled as an insertion-ordered list. -/
def setAdd [DecidableEq α] (x : α) (s : List α) : List α :=
  if x ∈ s then s else s ++ [x]

/-- `ContentFetcher.__downloadables` / the `downloadables` dict shared with
`LinkProcessor`: format tag to list of `(filename, url)` pairs. -/
structure Downloadables where
  pdf : List (Str × Str)
  docx : List (Str × Str)
  xlsx : List (Str × Str)
  zip : List (Str × Str)
deriving DecidableEq

/-- The empty `downloadables` dict. -/
def Downloadables.empty : Downloadables := ⟨[], [], [], []⟩

/-- Is `filename` registered under any of the four format tags?
(The guard of `LinkProcessor.__handle_downloadable`.) -/
def downloadablesHas (filename : Str) (d : Downloadables) : Bool :=
  decide (filename ∈ dictKeys d.pdf) || decide (filename ∈ dictKeys d.docx) ||
  decide (filename ∈ dictKeys d.xlsx) || decide (filename ∈ dictKeys d.zip)

/-- One `downloadable_info` metadata record built by
`LinkProcessor.__handle_downloadable`. -/
structure DownloadInfo where
  url : Str
  filename : Str
  format : Str
  description : Str
  source_url : Str
  timestamp : Str
  folder : Str
deriving DecidableEq

/-- The per-page `downloadables_data` dict returned by
`LinkProcessor.process_href_links`. -/
structure DownloadablesData where
  pdf : List DownloadInfo
  docx : List DownloadInfo
  xlsx : List DownloadInfo
  zip : List DownloadInfo
deriving DecidableEq

/-- The empty `downloadables_data` dict. -/
def DownloadablesData.empty : DownloadablesData := ⟨[], [], [], []⟩

/-- The content dictionary built by `create_content_dictionary`
(`scraper/utils.py`). -/
structure ContentDict where
  text : Str
  images : List Str
  downloadables : DownloadablesData
  video_data : List Str
deriving DecidableEq

/-- A value of `ContentFetcher.__extracted_data`: either the content dict of a
fetched page or the metadata record stored for a downloaded PDF. -/
inductive ContentRecord
  | page (content : ContentDict)
  | pdfMeta (pdf_path : Str) (url : Str) (source_page : Str)
deriving DecidableEq

/-- The mutable state of a `ContentFetcher` instance: its registries, the
private counter of its `URLNameGenerator`, and the browser's current URL. -/
structure CrawlState where
  seen_links : List (Str × Option Str)
  relevant_links : List (Str × Str)
  non_college_urls : List Str
  urls_not_fetched : List Str
  error_urls : List Str
  extracted_data : List (Str × ContentRecord)
  google_drive_urls : List Str
  downloadables : Downloadables
  nameCtr : Nat
  currentUrl : Str
deriving DecidableEq

/-- A fresh `ContentFetcher` state (no checkpoint on disk). -/
def CrawlState.empty : CrawlState :=
  ⟨[], [], [], [], [], [], [], Downloadables.empty, 1, []⟩

/-- An anchor tag found on a rendered page: its `href` attribute and its
(stripped) text. -/
structure Anchor where
  href : Str
  text : Str
deriving DecidableEq

/-- What a successfully rendered page yields: the collaborator extractors'
outputs and the anchor tags scanned by `LinkProcessor`. -/
structure PageData where
  text : Str
  images : List Str
  videos : List Str
  anchors : List Anchor
deriving DecidableEq

/-- The environment of external effects: deterministic oracles for the
network.  `hashResult u = none` models `fetch_and_hash_content` returning
`None` (non-200 status or network failure); `downloadResult u = none` models a
failed `download_file`; `fetchOutcome u = none` models
`ContentFetcher.__fetch_content` raising (for example, a timeout in
`driver.get`). -/
structure Env where
  hashResult : Str → Option Str
  canFetch : Str → Bool
  downloadResult : Str → Option Str
  fetchOutcome : Str → Option PageData
  now : Str

/-! ## `scraper/href_parser.py`: `LinkProcessor` -/

/-- The image/video extensions skipped outright by `process_href_links`. -/
def mediaExts : List Str :=
  [".png", ".jpg", ".jpeg", ".gif", ".svg", ".mp4", ".avi", ".mkv", ".mov",
   ".wmv", ".flv", ".webm"].map String.data

/-- The document extensions routed to `__handle_downloadable`. -/
def docExts : List Str := [".pdf", ".docx", ".xlsx", ".zip"].map String.data

/-- The sub-state of `process_href_links`: the shared `seen_links`,
`relevant_links` and `downloadables` structures, the per-page
`downloadables_data`, and the page-local `URLNameGenerator` counter. -/
structure LinkState where
  seen_links : List (Str × Option Str)
  relevant_links : List (Str × Str)
  downloadables : Downloadables
  ddata : DownloadablesData
  nameCtr : Nat
deriving DecidableEq

/-- `LinkProcessor.__handle_downloadable`.  Returns `none` when
`get_name_from_url`'s `urlparse` raises (the exception propagates). -/
def handleDownloadable (env : Env) (currentUrl fullUrl aText : Str)
    (ddata : DownloadablesData) (downs : Downloadables) (ctr : Nat) :
    Option (DownloadablesData × Downloadables × Nat × List Event) := do
  let (name, ctr2) ← get_name_from_url ctr fullUrl
  let file_name := pyReplaceChar '/' '_' name
  if downloadablesHas file_name downs then pure (ddata, downs, ctr2, [])
  else
    let file_ext := match splitLast '.' fullUrl with
      | some (_, e) => e
      | none => fullUrl
    let ev := [Event.downloadReq fullUrl]
    match env.downloadResult fullUrl with
    | none => pure (ddata, downs, ctr2, ev)
    | some _path =>
      let info : DownloadInfo :=
        ⟨fullUrl, file_name, file_ext, pyStrip aText, currentUrl, env.now,
         "fetched_downloadables".data⟩
      if file_ext = "pdf".data then
        pure ({ ddata with pdf := ddata.pdf ++ [info] },
              { downs with pdf := downs.pdf ++ [(file_name, fullUrl)] }, ctr2, ev)
      else if file_ext = "docx".data then
        pure ({ ddata with docx := ddata.docx ++ [info] },
              { downs with docx := downs.docx ++ [(file_name, fullUrl)] }, ctr2, ev)
      else if file_ext = "xlsx".data then
        pure ({ ddata with xlsx := ddata.xlsx ++ [info] },
              { downs with xlsx := downs.xlsx ++ [(file_name, fullUrl)] }, ctr2, ev)
      else if file_ext = "zip".data then
        pure ({ ddata with zip := ddata.zip ++ [info] },
              { downs with zip := downs.zip ++ [(file_name, fullUrl)] }, ctr2, ev)
      else pure (ddata, downs, ctr2, ev)

/-- The body of `process_href_links` for one anchor tag.  Returns `none` when
an inner `urlparse` raises (the exception propagates out of the loop). -/
def hrefStep (env : Env) (currentUrl : Str) (ls : LinkState) (a : Anchor) :
    Option (LinkState × List Event) := do
  let full_url ← pyUrljoin currentUrl a.href
  let normalized_url ← normalize_url full_url none
  if mediaExts.any (fun e => endsWith e a.href) then pure (ls, [])
  else if docExts.any (fun e => endsWith e a.href) then
    let (dd, dw, c, ev) ←
      handleDownloadable env currentUrl full_url a.text ls.ddata ls.downloadables ls.nameCtr
    pure ({ ls with ddata := dd, downloadables := dw, nameCtr := c }, ev)
  else if normalized_url = [] ∨ normalized_url ∈ dictKeys ls.seen_links then
    pure (ls, [])
  else
    let content_hash := env.hashResult full_url
    let ev := [Event.hashGet full_url]
    match content_hash with
    | some h =>
      if h ≠ [] ∧ some h ∉ dictValues ls.seen_links then
        pure ({ ls with
                 seen_links := dictSet ls.seen_links normalized_url (some h),
                 relevant_links := dictSet ls.relevant_links normalized_url full_url }, ev)
      else pure (ls, ev)
    | none => pure (ls, ev)

/-- `LinkProcessor.process_href_links` over the anchor list of a page.  The
final `Bool` is `true` when an exception escaped the loop: the partial
mutations made so far are kept, as in Python, and the caller's `try` block
sees the raise. -/
def processHrefLinks (env : Env) (currentUrl : Str) :
    List Anchor → LinkState → LinkState × List Event × Bool
  | [], ls => (ls, [], false)
  | a :: rest, ls =>
    match hrefStep env currentUrl ls a with
    | none => (ls, [], true)
    | some (ls2, ev) =>
      let r := processHrefLinks env currentUrl rest ls2
      (r.1, ev ++ r.2.1, r.2.2)

/-! ## `scraper/controller.py`: `ContentFetcher` -/

/-- The body of the wave loop of `ContentFetcher.process_url` for one raw URL
taken from the frontier snapshot (lines 174-229 of `controller.py`).  Returns
`none` when an uncaught exception escapes (only `normalize_url` /
`get_name_from_url` can raise outside the `try` block). -/
def dispatchUrl (env : Env) (s : CrawlState) (url : Str) :
    Option (CrawlState × List Event) := do
  let normalized_url ← normalize_url url none
  if is_college_url url then
    if is_pdf_url url then
      let (name, ctr2) ← get_name_from_url s.nameCtr url
      let filename := pyReplaceChar '/' '_' name
      let s := { s with nameCtr := ctr2 }
      if filename ∈ dictKeys s.downloadables.pdf then pure (s, [])
      else
        let ev := [Event.downloadReq url]
        match env.downloadResult url with
        | some path =>
          pure ({ s with
                   extracted_data := dictSet s.extracted_data normalized_url
                     (ContentRecord.pdfMeta path url s.currentUrl),
                   downloadables :=
                     { s.downloadables with pdf := s.downloadables.pdf ++ [(filename, url)] } },
                ev)
        | none => pure (s, ev)
    else if is_google_drive_url url then
      match extract_google_drive_file_id url with
      | none => pure (s, [])
      | some fid =>
        let download_url := google_drive_download_url fid
        let filename := pyReplaceChar '/' '_' fid
        if filename ∈ dictKeys s.downloadables.pdf then pure (s, [])
        else
          let ev := [Event.downloadReq download_url]
          match env.downloadResult download_url with
          | some path =>
            pure ({ s with
                     extracted_data := dictSet s.extracted_data normalized_url
                       (ContentRecord.pdfMeta path url s.currentUrl),
                     downloadables :=
                       { s.downloadables with pdf := s.downloadables.pdf ++ [(filename, url)] },
                     google_drive_urls := setAdd url s.google_drive_urls },
                  ev)
          | none => pure (s, ev)
    else if env.canFetch url then
      let ev0 := [Event.headProbe url, Event.pageFetch url]
      match env.fetchOutcome url with
      | none => pure ({ s with error_urls := setAdd url s.error_urls }, ev0)
      | some pd =>
        let s := { s with currentUrl := url }
        let ls : LinkState :=
          ⟨s.seen_links, s.relevant_links, s.downloadables, DownloadablesData.empty, 1⟩
        let r := processHrefLinks env url pd.anchors ls
        let s := { s with
                    seen_links := r.1.seen_links,
                    relevant_links := r.1.relevant_links,
                    downloadables := r.1.downloadables }
        if r.2.2 then
          pure ({ s with error_urls := setAdd url s.error_urls }, ev0 ++ r.2.1)
        else
          let content : ContentDict := ⟨pd.text, pd.images, r.1.ddata, pd.videos⟩
          pure ({ s with
                   extracted_data := dictSet s.extracted_data normalized_url
                     (ContentRecord.page content) },
                ev0 ++ r.2.1)
    else
      pure ({ s with urls_not_fetched := setAdd url s.urls_not_fetched },
            [Event.headProbe url])
  else
    pure ({ s with non_college_urls := setAdd url s.non_college_urls }, [])

/-- Process the raw URLs of one frontier snapshot in order. -/
def waveFold (env : Env) : List Str → CrawlState → Option (CrawlState × List Event)
  | [], s => some (s, [])
  | u :: rest, s => do
    let (s2, ev) ← dispatchUrl env s u
    let (s3, ev2) ← waveFold env rest s2
    pure (s3, ev ++ ev2)

/-- One iteration of the `while self.__relevant_links` loop: snapshot the
frontier, clear it, then dispatch every snapshot entry (its raw-URL values,
in insertion order). -/
def runWave (env : Env) (s : CrawlState) : Option (CrawlState × List Event) :=
  waveFold env (dictValues s.relevant_links) { s with relevant_links := [] }

/-- The full `while` loop, with explicit fuel bounding the number of waves
(`none` on fuel exhaustion or on an uncaught exception). -/
def crawlLoop (env : Env) : Nat → CrawlState → Option (CrawlState × List Event)
  | 0, s => if s.relevant_links = [] then some (s, []) else none
  | fuel + 1, s =>
    if s.relevant_links = [] then some (s, [])
    else do
      let (s2, ev) ← runWave env s
      let (s3, ev2) ← crawlLoop env fuel s2
      pure (s3, ev ++ ev2)

/-- The seed handling of `ContentFetcher.process_url` (lines 159-167): the
duplicate check, the unconditional record, and the frontier insertion.  The
final `Bool` is `true` when the seed was skipped as already processed.  Note
the two separate `fetch_and_hash_content` calls on the non-duplicate path. -/
def seedPhase (env : Env) (s : CrawlState) (url : Str) :
    Option (CrawlState × List Event × Bool) := do
  let normalized_url ← normalize_url url none
  if normalized_url ∈ dictKeys s.seen_links then pure (s, [], true)
  else if env.hashResult url ∈ dictValues s.seen_links then
    pure (s, [Event.hashGet url], true)
  else
    let s := { s with
                seen_links := dictSet s.seen_links normalized_url (env.hashResult url) }
    let s := { s with relevant_links := dictSet s.relevant_links normalized_url url }
    pure (s, [Event.hashGet url, Event.hashGet url], false)

/-- `ContentFetcher.process_url`: seed dedup-and-record followed by the wave
loop (checkpoint saving and driver shutdown are modelled separately). -/
def process_url (env : Env) (fuel : Nat) (s : CrawlState) (url : Str) :
    Option (CrawlState × List Event) := do
  let (s2, ev, skipped) ← seedPhase env s url
  if skipped then pure (s2, ev)
  else do
    let (s3, ev2) ← crawlLoop env fuel s2
    pure (s3, ev ++ ev2)

/-! ## `ContentFetcher.__save_data` / `__load_data` (checkpointing) -/

/-- The pickled checkpoint dict.  Each field is `Option`al because
`__load_data` reads every key with `data.get(key, default)`. -/
structure CheckpointBlob where
  seen_links : Option (List (Str × Option Str))
  non_college_urls : Option (List Str)
  urls_not_fetched : Option (List Str)
  error_urls : Option (List Str)
  extracted_data : Option (List (Str × ContentRecord))
  google_drive_urls : Option (List Str)
  downloadables : Option Downloadables
deriving DecidableEq

/-- `ContentFetcher.__save_data`: write all seven registries into the
checkpoint dict (pickling itself is lossless on these values). -/
def saveData (s : CrawlState) : CheckpointBlob :=
  ⟨some s.seen_links, some s.non_college_urls, some s.urls_not_fetched,
   some s.error_urls, some s.extracted_data, some s.google_drive_urls,
   some s.downloadables⟩

/-- `ContentFetcher.__load_data`: read the seven registries back with
`data.get(key, default)`, leaving all other instance state alone. -/
def loadData (b : CheckpointBlob) (s : CrawlState) : CrawlState :=
  { s with
     seen_links := b.seen_links.getD [],
     non_college_urls := b.non_college_urls.getD [],
     urls_not_fetched := b.urls_not_fetched.getD [],
     error_urls := b.error_urls.getD [],
     extracted_data := b.extracted_data.getD [],
     google_drive_urls := b.google_drive_urls.getD [],
     downloadables := b.downloadables.getD Downloadables.empty }

/-! ## Concrete scenarios used to settle the claims

Small deterministic environments: a crawl of `nitj.ac.in` pages whose anchors
exercise the discovery paths of `process_href_links` and the wave loop. -/

/-- The sub-state of a fresh `LinkProcessor` run sharing empty registries. -/
def LinkState.empty : LinkState :=
  ⟨[], [], Downloadables.empty, DownloadablesData.empty, 1⟩

/-- An environment with no reachable network at all. -/
def envQuiet : Env :=
  { hashResult := fun _ => none, canFetch := fun _ => false,
    downloadResult := fun _ => none, fetchOutcome := fun _ => none,
    now := "2024-01-01 00:00:00".data }

/-- An in-scope page URL used as `driver.current_url` in link-processing
scenarios. -/
def nitjPage : Str := "http://nitj.ac.in/page".data

/-- An out-of-scope page link discovered on an in-scope page. -/
def evilPage : Str := "http://evil.example.com/page".data

/-- An out-of-scope document link discovered on an in-scope page. -/
def evilPdf : Str := "http://evil.example.com/x.pdf".data

/-- Environment for the out-of-scope discovery scenario: the fingerprint GET
of `evilPage` succeeds and the download of `evilPdf` succeeds. -/
def envScope : Env :=
  { envQuiet with
     hashResult := fun u => if u = evilPage then some "h1".data else none,
     downloadResult := fun u => if u = evilPdf then some "fetched_downloadables/x".data else none }

/-- The anchor list of the out-of-scope discovery scenario. -/
def scopeAnchors : List Anchor := [⟨evilPage, "a".data⟩, ⟨evilPdf, "b".data⟩]

/-- The seed URL of the transient-failure scenario. -/
def seedU : Str := "http://nitj.ac.in/start".data

/-- The linked page whose fetch raises in the transient-failure scenario. -/
def page2U : Str := "http://nitj.ac.in/page2".data

/-- Environment for the transient-failure scenario: the seed page renders and
links to `page2U`; fetching `page2U` raises (`fetchOutcome = none`). -/
def envFail : Env :=
  { envQuiet with
     hashResult := fun u =>
       if u = seedU then some "h0".data else if u = page2U then some "h2".data else none,
     canFetch := fun _ => true,
     fetchOutcome := fun u =>
       if u = seedU then some ⟨"text".data, [], [], [⟨page2U, "link".data⟩]⟩ else none }

/-- A fresh in-scope candidate link whose fingerprint GET fails. -/
def probeU : Str := "http://nitj.ac.in/other".data

/-- A previously recorded normalized URL whose stored fingerprint is `None`
(its hash probe failed when it was recorded). -/
def aNorm : Str := "http://nitj.ac.in/a".data

/-- A fresh seed whose hash probe also fails. -/
def urlB : Str := "http://nitj.ac.in/b".data

/-- A registry state holding one entry with a `None` fingerprint. -/
def stNone : CrawlState := { CrawlState.empty with seen_links := [(aNorm, none)] }

/-- The document URL of the fragment scenario. -/
def docU : Str := "http://nitj.ac.in/doc.pdf".data

/-- The same document linked with a fragment on a later page. -/
def docFragU : Str := "http://nitj.ac.in/doc.pdf#section2".data

/-- Environment for the fragment scenario: the fingerprint GET of the
fragment link succeeds. -/
def envFrag : Env :=
  { envQuiet with
     hashResult := fun u => if u = docFragU then some "hd".data else none,
     downloadResult := fun _ => some "fetched_downloadables/doc".data }

/-- Link-processing state in which `doc` is already a downloaded PDF. -/
def lsFrag : LinkState :=
  { LinkState.empty with
     downloadables := { Downloadables.empty with pdf := [("doc".data, docU)] } }

/-- A one-entry frontier state whose frontier key is recorded in
`seen_links`, as the crawler maintains. -/
def stWave : CrawlState :=
  { CrawlState.empty with
     seen_links := [(seedU, some "h0".data)],
     relevant_links := [(seedU, seedU)] }

/-! ## Invariant predicates for the wave-discipline claim -/

/-- Composable invariant of one mutation step of the shared registries: every
frontier key is either old or was absent from the old `seen_links` and is
present in the new one, and `seen_links` keys only grow. -/
def StepPreserves (seen seen2 : List (Str × Option Str)) (rel rel2 : List (Str × Str)) : Prop :=
  (∀ k, k ∈ dictKeys rel2 →
     k ∈ dictKeys rel ∨ (k ∉ dictKeys seen ∧ k ∈ dictKeys seen2))
  ∧ (∀ k, k ∈ dictKeys seen → k ∈ dictKeys seen2)

/-- The normalized query pipeline of `normalize_url`: parse, drop tracking
parameters, sort. -/
def normQueryOf (p : UrlParts) : List (Str × Str) :=
  pySortPairs ((pyParseQsl p.query).filter (fun kv => kv.1 ∉ IGNORE_PARAMS))

/-- The normalization contract on one URL: `normalize_url` (without a base)
rebuilds the URL from the parse of its lower-cased text with the scheme
collapsed to `http`, a lower-case scheme and host, no trailing slash on the
path, a tracking-free key-sorted query, and no params or fragment. -/
def NormalizedShape (u : Str) : Prop :=
  ∀ p, pyUrlparse (pyLower u) = some p →
    normalizeAbsolute u = some (pyUrlunparse
        ⟨normSchemeOf p.scheme, p.netloc, rstripChar '/' p.path, [],
         pyUrlencode (normQueryOf p), []⟩)
    ∧ pyLower p.scheme = p.scheme
    ∧ pyLower p.netloc = p.netloc
    ∧ normSchemeOf p.scheme ≠ "https".data
    ∧ endsWith "/".data (rstripChar '/' p.path) = false
    ∧ (normQueryOf p).Pairwise (fun a b => strLt b.1 a.1 = false)
    ∧ (∀ kv ∈ normQueryOf p, kv.1 ∉ IGNORE_PARAMS)

/-- The wave-discipline invariant of `runWave`: every frontier entry produced
by a wave is recorded in `seen_links`, is new with respect to the
`seen_links` and frontier at wave start, and only snapshot members are ever
page-fetched during the wave. -/
def FrontierWaveInv (env : Env) (s : CrawlState) : Prop :=
  ∀ s2 ev, runWave env s = some (s2, ev) →
    (∀ k, k ∈ dictKeys s2.relevant_links →
        k ∈ dictKeys s2.seen_links ∧ k ∉ dictKeys s.seen_links ∧
        k ∉ dictKeys s.relevant_links)
    ∧ (∀ x, Event.pageFetch x ∈ ev → x ∈ dictValues s.relevant_links)

/-! # Theorems -/

/-! ## Association-list and set helper lemmas -/

theorem mem_dictKeys_dictSet {β : Type} (d : List (Str × β)) (k k2 : Str) (v : β) :
    k2 ∈ dictKeys (dictSet d k v) ↔ k2 ∈ dictKeys d ∨ k2 = k := by
  unfold dictSet
  by_cases hk : k ∈ dictKeys d
  · rw [if_pos hk]
    have hkeys : dictKeys (d.map (fun kv => if kv.1 = k then (k, v) else kv)) = dictKeys d := by
      unfold dictKeys
      rw [List.map_map]
      refine List.map_congr_left ?_
      intro kv _
      by_cases h : kv.1 = k
      · simp [h]
      · simp [h]
    rw [hkeys]
    constructor
    · exact fun h => Or.inl h
    · rintro (h | rfl)
      · exact h
      · exact hk
  · rw [if_neg hk]
    unfold dictKeys
    rw [List.map_append, List.mem_append]
    simp only [List.map_cons, List.map_nil, List.mem_singleton]

theorem mem_setAdd (x y : Str) (s : List Str) :
    x ∈ setAdd y s ↔ x ∈ s ∨ x = y := by
  unfold setAdd
  by_cases hy : y ∈ s
  · rw [if_pos hy]
    constructor
    · exact fun h => Or.inl h
    · rintro (h | rfl)
      · exact h
      · exact hy
  · rw [if_neg hy]
    simp

/-! ## C8: checkpoint round-trip -/

/-- C8: saving a checkpoint and loading it back reproduces the `seen_links`
registry, the `downloadables` registry, the `extracted_data` store, the three
classification sets and the Google-Drive registry unchanged, for every crawl
state and whatever state the loading instance started with. -/
theorem C8_checkpoint_round_trip (s t : CrawlState) :
    (loadData (saveData s) t).seen_links = s.seen_links
    ∧ (loadData (saveData s) t).downloadables = s.downloadables
    ∧ (loadData (saveData s) t).extracted_data = s.extracted_data
    ∧ (loadData (saveData s) t).non_college_urls = s.non_college_urls
    ∧ (loadData (saveData s) t).urls_not_fetched = s.urls_not_fetched
    ∧ (loadData (saveData s) t).error_urls = s.error_urls
    ∧ (loadData (saveData s) t).google_drive_urls = s.google_drive_urls :=
  ⟨rfl, rfl, rfl, rfl, rfl, rfl, rfl⟩

/-! ## C9: one hash probe per frontier candidate -/

/-- C9: the failing input for the double hash probe.  On a fresh seed with an
empty registry, the seed handling of `process_url` issues the
`fetch_and_hash_content` GET twice — once inside the duplicate check
(line 161 of `controller.py`) and once more when recording (line 165) — where
the specification allows at most one probe per frontier candidate. -/
theorem C9_seed_double_hash_probe :
    seedPhase envQuiet CrawlState.empty seedU =
      some ({ CrawlState.empty with
               seen_links := [(seedU, none)],
               relevant_links := [(seedU, seedU)] },
            [Event.hashGet seedU, Event.hashGet seedU], false)
    ∧ (seedPhase envFail CrawlState.empty seedU).map
        (fun r => r.2.1.count (Event.hashGet seedU)) = some 2 := by
  exact ⟨rfl, rfl⟩

/-! ## C5: dedup decision semantics -/

/-- C5 counterexample: a fresh normalized URL (`urlB` is not a key of the
registry) whose hash probe returns no fingerprint is nevertheless judged
previously-seen, because the registry holds an entry whose recorded
fingerprint is `None` and line 161 of `controller.py` compares the raw
`fetch_and_hash_content` result against the registry values.  The claim says
an absent fingerprint never by itself marks a fresh URL as a duplicate. -/
theorem C5_counterexample :
    envQuiet.hashResult urlB = none
    ∧ urlB ∉ dictKeys stNone.seen_links
    ∧ seedPhase envQuiet stNone urlB = some (stNone, [Event.hashGet urlB], true) := by
  refine ⟨rfl, ?_, rfl⟩
  decide

/-- C5 (amended): the seed dedup decision judges a candidate previously-seen
exactly when its normalized URL is a registry key or the raw hash-probe
result — including `None` — equals some recorded registry value; on the
fresh path the pair is recorded unconditionally (and the probe runs twice). -/
theorem C5_dedup_decision (env : Env) (s : CrawlState) (url norm : Str)
    (hn : normalize_url url none = some norm) :
    (norm ∉ dictKeys s.seen_links → env.hashResult url ∉ dictValues s.seen_links →
       seedPhase env s url =
         some ({ s with
                  seen_links := dictSet s.seen_links norm (env.hashResult url),
                  relevant_links := dictSet s.relevant_links norm url },
               [Event.hashGet url, Event.hashGet url], false))
    ∧ (norm ∈ dictKeys s.seen_links ∨ env.hashResult url ∈ dictValues s.seen_links →
       ∃ ev, seedPhase env s url = some (s, ev, true)) := by
  constructor
  · intro h1 h2
    unfold seedPhase
    rw [hn]
    simp only [Option.bind_eq_bind, Option.some_bind, Option.pure_def, if_neg h1, if_neg h2]
  · intro h
    unfold seedPhase
    rw [hn]
    by_cases h1 : norm ∈ dictKeys s.seen_links
    · exact ⟨[], by simp only [Option.bind_eq_bind, Option.some_bind, Option.pure_def, if_pos h1]⟩
    · have h2 : env.hashResult url ∈ dictValues s.seen_links := h.resolve_left h1
      exact ⟨[Event.hashGet url], by
        simp only [Option.bind_eq_bind, Option.some_bind, Option.pure_def, if_neg h1, if_pos h2]⟩

/-- Witness for C5 (amended): at the empty registry the fresh seed is
recorded unconditionally with its (failed) probe result. -/
theorem C5_dedup_decision_witness :
    normalize_url urlB none = some urlB
    ∧ seedPhase envQuiet CrawlState.empty urlB =
        some ({ CrawlState.empty with
                 seen_links := dictSet CrawlState.empty.seen_links urlB (envQuiet.hashResult urlB),
                 relevant_links := dictSet CrawlState.empty.relevant_links urlB urlB },
              [Event.hashGet urlB, Event.hashGet urlB], false) :=
  ⟨rfl, (C5_dedup_decision envQuiet CrawlState.empty urlB urlB rfl).1 (by decide) (by decide)⟩

/-! ## C3: no-fingerprint candidates -/

/-- C3 counterexample: a fresh in-scope candidate whose hash probe returns no
fingerprint is dropped by `process_href_links` — `seen_links` and
`relevant_links` are returned unchanged — where the claim says it must still
be recorded and enqueued under URL-only dedup. -/
theorem C3_counterexample :
    envQuiet.hashResult probeU = none
    ∧ normalize_url probeU none = some probeU
    ∧ probeU ∉ dictKeys LinkState.empty.seen_links
    ∧ processHrefLinks envQuiet nitjPage [⟨probeU, "t".data⟩] LinkState.empty =
        (LinkState.empty, [Event.hashGet probeU], false) := by
  refine ⟨rfl, rfl, ?_, rfl⟩
  decide

/-- C3 (amended): when the content hasher returns no fingerprint for a newly
discovered candidate whose normalized URL is not yet a registry key, the
candidate is dropped without error: the link-processing state is returned
unchanged — the candidate is neither recorded into `seen_links` nor enqueued
into `relevant_links` — and the only side effect is the single probe GET. -/
theorem C3_no_fingerprint_dropped (env : Env) (cur : Str) (ls : LinkState) (a : Anchor)
    (full norm : Str)
    (hjoin : pyUrljoin cur a.href = some full)
    (hnorm : normalize_url full none = some norm)
    (hmedia : mediaExts.any (fun e => endsWith e a.href) = false)
    (hdoc : docExts.any (fun e => endsWith e a.href) = false)
    (hne : ¬ (norm = [] ∨ norm ∈ dictKeys ls.seen_links))
    (hhash : env.hashResult full = none) :
    hrefStep env cur ls a = some (ls, [Event.hashGet full]) := by
  unfold hrefStep
  rw [hjoin]
  simp only [Option.bind_eq_bind, Option.some_bind]
  rw [hnorm]
  simp only [Option.bind_eq_bind, Option.some_bind, hmedia, hdoc, if_neg hne, hhash]
  rfl

/-- Witness for C3 (amended): the concrete dropped candidate. -/
theorem C3_no_fingerprint_dropped_witness :
    pyUrljoin nitjPage probeU = some probeU
    ∧ hrefStep envQuiet nitjPage LinkState.empty ⟨probeU, "t".data⟩ =
        some (LinkState.empty, [Event.hashGet probeU]) :=
  ⟨rfl, C3_no_fingerprint_dropped envQuiet nitjPage LinkState.empty ⟨probeU, "t".data⟩
     probeU probeU rfl rfl (by decide) (by decide) (by decide) rfl⟩

/-! ## C6: download idempotence per derived filename -/

/-- C6 counterexample: `doc` is already registered as a downloaded PDF and the
fragment link `doc.pdf#section2` derives the very same filename, yet the
second encounter is not skipped as already-downloaded: because the extension
test is `href.endswith('.pdf')` on the raw href, the fragment link is not
classified as a downloadable at all — instead a fingerprint GET is issued and
the link is recorded into `seen_links` and enqueued into the frontier, so the
crawl state does change. -/
theorem C6_counterexample :
    lsFrag.downloadables.pdf = [("doc".data, docU)]
    ∧ get_name_from_url 1 docU = some ("doc".data, 1)
    ∧ get_name_from_url 1 docFragU = some ("doc".data, 1)
    ∧ hrefStep envFrag nitjPage lsFrag ⟨docFragU, "x".data⟩ =
        some ({ lsFrag with
                 seen_links := [(docU, some "hd".data)],
                 relevant_links := [(docU, docFragU)] },
              [Event.hashGet docFragU]) :=
  ⟨rfl, rfl, rfl, rfl⟩

/-- C6 (amended): the derived logical filename depends only on the parsed URL
path (so it ignores the fragment and the query), and a downloadable whose
derived filename is already registered under any format tag is skipped:
`__handle_downloadable` returns the registries unchanged with no download
request.  But this skip only triggers for links whose raw href ends with a
document extension; a fragment-suffixed link to the same document bypasses it
(see the counterexample). -/
theorem C6_download_idempotent :
    (∀ ctr u1 u2 p1 p2, pyUrlparse u1 = some p1 → pyUrlparse u2 = some p2 →
       p1.path = p2.path → get_name_from_url ctr u1 = get_name_from_url ctr u2)
    ∧ (∀ env cur full aText dd downs ctr name ctr2,
         get_name_from_url ctr full = some (name, ctr2) →
         downloadablesHas (pyReplaceChar '/' '_' name) downs = true →
         handleDownloadable env cur full aText dd downs ctr = some (dd, downs, ctr2, [])) := by
  constructor
  · intro ctr u1 u2 p1 p2 h1 h2 hpath
    unfold get_name_from_url
    rw [h1, h2]
    simp only [Option.bind_eq_bind, Option.some_bind]
    rw [hpath]
  · intro env cur full aText dd downs ctr name ctr2 hname hhas
    unfold handleDownloadable
    rw [hname]
    simp only [Option.bind_eq_bind, Option.some_bind, hhas, if_true]
    rfl

/-- Witness for C6 (amended): the registered `doc` filename makes the second
direct `.pdf` link a silent no-op. -/
theorem C6_download_idempotent_witness :
    get_name_from_url 1 docU = some ("doc".data, 1)
    ∧ downloadablesHas (pyReplaceChar '/' '_' "doc".data) lsFrag.downloadables = true
    ∧ handleDownloadable envFrag nitjPage docU "x".data DownloadablesData.empty
        lsFrag.downloadables 1 = some (DownloadablesData.empty, lsFrag.downloadables, 1, []) :=
  ⟨rfl, rfl, C6_download_idempotent.2 envFrag nitjPage docU "x".data
     DownloadablesData.empty lsFrag.downloadables 1 "doc".data 1 rfl rfl⟩

/-! ## C1: scope check and out-of-scope URLs -/

/-- C1 counterexample: two out-of-scope links discovered on an in-scope page.
`process_href_links` applies no scope check: it issues the content-fingerprint
GET for the out-of-scope page link — and records it into `seen_links` and the
frontier — and downloads the out-of-scope document link, refuting "the scope
check is applied before any fingerprint is computed or any download is
attempted, the URL is recorded into the NonScope set, and nothing else
happens to it". -/
theorem C1_counterexample :
    is_college_url evilPage = false
    ∧ is_college_url evilPdf = false
    ∧ processHrefLinks envScope nitjPage scopeAnchors LinkState.empty =
        ({ LinkState.empty with
            seen_links := [(evilPage, some "h1".data)],
            relevant_links := [(evilPage, evilPage)],
            downloadables := { Downloadables.empty with pdf := [("x".data, evilPdf)] },
            ddata := { DownloadablesData.empty with
                        pdf := [⟨evilPdf, "x".data, "pdf".data, "b".data, nitjPage,
                                 envScope.now, "fetched_downloadables".data⟩] } },
         [Event.hashGet evilPage, Event.downloadReq evilPdf], false) :=
  ⟨rfl, rfl, rfl⟩

/-- C1 (amended): in the wave dispatcher, an out-of-scope URL triggers no
network action at all — no head probe, no page fetch, no download, no hash
GET — and the only state change is recording the raw URL into the NonScope
set.  (At discovery time, however, the link extractor applies no scope check;
see the counterexample.) -/
theorem C1_wave_scope_check (env : Env) (s : CrawlState) (url : Str)
    (hn : (normalize_url url none).isSome)
    (hc : is_college_url url = false) :
    dispatchUrl env s url =
      some ({ s with non_college_urls := setAdd url s.non_college_urls }, []) := by
  obtain ⟨norm, hnorm⟩ := Option.isSome_iff_exists.mp hn
  unfold dispatchUrl
  rw [hnorm]
  simp only [Option.bind_eq_bind, Option.some_bind, hc, Bool.false_eq_true, if_false,
    Option.pure_def]

/-- Witness for C1 (amended): the out-of-scope mirror-style URL is recorded
as NonScope with an empty event trace. -/
theorem C1_wave_scope_check_witness :
    (normalize_url evilPage none).isSome = true
    ∧ is_college_url evilPage = false
    ∧ dispatchUrl envQuiet CrawlState.empty evilPage =
        some ({ CrawlState.empty with
                 non_college_urls := setAdd evilPage CrawlState.empty.non_college_urls }, []) :=
  ⟨rfl, rfl, C1_wave_scope_check envQuiet CrawlState.empty evilPage (by decide) rfl⟩

/-! ## C2: transient failures -/

/-- C2 counterexample: the seed page links to `page2U`, whose page fetch then
raises.  At the end of the run `page2U` is recorded as Errored and the wave
loop terminated normally — but `page2U` **is** a key of `seen_links` (it was
recorded at discovery time, before the failed fetch), so a subsequent run
will skip it rather than re-attempt it, refuting "the failed URL is not
present in SeenRegistry at the end of the run". -/
theorem C2_counterexample :
    (process_url envFail 3 CrawlState.empty seedU).map
        (fun r => (r.1.error_urls, dictKeys r.1.seen_links, r.1.relevant_links)) =
      some ([page2U], [seedU, page2U], [])
    ∧ envFail.canFetch page2U = true
    ∧ envFail.fetchOutcome page2U = none :=
  ⟨rfl, rfl, rfl⟩

/-- C2 (amended): a page fetch that raises is contained — the URL is recorded
into the Errored set, `seen_links`, the frontier and every other registry are
left untouched by the failure, and the wave continues with the next snapshot
entry.  (The URL itself, though, was already recorded into `seen_links` when
it was discovered, so a later run will not re-attempt it.) -/
theorem C2_transient_failure_contained (env : Env) (s : CrawlState) (url norm : Str)
    (hn : normalize_url url none = some norm)
    (hc : is_college_url url = true) (hp : is_pdf_url url = false)
    (hg : is_google_drive_url url = false) (hf : env.canFetch url = true)
    (hr : env.fetchOutcome url = none) :
    dispatchUrl env s url =
      some ({ s with error_urls := setAdd url s.error_urls },
            [Event.headProbe url, Event.pageFetch url])
    ∧ ∀ rest s2 ev2,
        waveFold env rest { s with error_urls := setAdd url s.error_urls } = some (s2, ev2) →
        waveFold env (url :: rest) s =
          some (s2, [Event.headProbe url, Event.pageFetch url] ++ ev2) := by
  have h1 : dispatchUrl env s url =
      some ({ s with error_urls := setAdd url s.error_urls },
            [Event.headProbe url, Event.pageFetch url]) := by
    unfold dispatchUrl
    rw [hn]
    simp only [Option.bind_eq_bind, Option.some_bind, hc, hp, hg, hf, hr, if_true,
      Bool.false_eq_true, if_false, Option.pure_def]
  refine ⟨h1, fun rest s2 ev2 hw => ?_⟩
  unfold waveFold
  rw [h1]
  simp only [Option.bind_eq_bind, Option.some_bind]
  rw [hw]
  rfl

/-- Witness for C2 (amended): the raising fetch of `page2U` only adds it to
the Errored set. -/
theorem C2_transient_failure_contained_witness :
    normalize_url page2U none = some page2U
    ∧ dispatchUrl envFail CrawlState.empty page2U =
        some ({ CrawlState.empty with error_urls := setAdd page2U CrawlState.empty.error_urls },
              [Event.headProbe page2U, Event.pageFetch page2U]) :=
  ⟨rfl, (C2_transient_failure_contained envFail CrawlState.empty page2U page2U
      rfl rfl rfl rfl rfl rfl).1⟩

/-! ## C10: the in-scope test -/

theorem startsWith_iff (p s : Str) : startsWith p s = true ↔ ∃ r, p ++ r = s := by
  induction p generalizing s with
  | nil =>
    simp only [startsWith, List.nil_append]
    exact ⟨fun _ => ⟨s, rfl⟩, fun _ => trivial⟩
  | cons a as ih =>
    cases s with
    | nil =>
      simp only [startsWith]
      constructor
      · intro h
        exact absurd h (by simp)
      · rintro ⟨r, h⟩
        exact absurd h (by simp)
    | cons x xs =>
      simp only [startsWith, Bool.and_eq_true, decide_eq_true_eq, ih]
      constructor
      · rintro ⟨rfl, r, rfl⟩
        exact ⟨r, rfl⟩
      · rintro ⟨r, h⟩
        rw [List.cons_append] at h
        injection h with h1 h2
        exact ⟨h1, r, h2⟩

theorem containsSub_iff (n s : Str) : containsSub n s = true ↔ ∃ a b, a ++ n ++ b = s := by
  induction s with
  | nil =>
    simp only [containsSub, decide_eq_true_eq]
    constructor
    · rintro rfl
      exact ⟨[], [], rfl⟩
    · rintro ⟨a, b, h⟩
      rcases List.append_eq_nil.mp h with ⟨h1, rfl⟩
      exact (List.append_eq_nil.mp h1).2
  | cons x xs ih =>
    simp only [containsSub, Bool.or_eq_true, startsWith_iff, ih]
    constructor
    · rintro (⟨r, hr⟩ | ⟨a, b, hab⟩)
      · exact ⟨[], r, by simpa using hr⟩
      · exact ⟨x :: a, b, by rw [← hab]; rfl⟩
    · rintro ⟨a, b, hab⟩
      cases a with
      | nil =>
        exact Or.inl ⟨b, by simpa using hab⟩
      | cons y ys =>
        rw [List.cons_append, List.cons_append] at hab
        injection hab with h1 h2
        exact Or.inr ⟨ys, b, h2⟩

/-- C10: `is_college_url` is a plain substring test of `nitj.ac.in` against
the parsed netloc — so a superdomain host such as `nitj.ac.in.example.com` is
classified in-scope and will be crawled — and a URL whose parse raises yields
`False` instead of propagating the exception. -/
theorem C10_is_college_url_contract :
    (∀ u p, pyUrlparse u = some p →
       (is_college_url u = true ↔ ∃ a b, a ++ "nitj.ac.in".data ++ b = p.netloc))
    ∧ (∀ u, pyUrlparse u = none → is_college_url u = false)
    ∧ is_college_url "http://nitj.ac.in.example.com/x".data = true
    ∧ is_college_url "https://www.nitj.ac.in/Dept".data = true
    ∧ is_college_url "http://[bad/x".data = false := by
  refine ⟨?_, ?_, rfl, rfl, rfl⟩
  · intro u p hp
    unfold is_college_url
    rw [hp]
    exact containsSub_iff _ _
  · intro u hp
    unfold is_college_url
    rw [hp]

/-- Witness for C10: the substring characterization and the parse-failure
fallback evaluated at concrete URLs. -/
theorem C10_is_college_url_contract_witness :
    (is_college_url "http://nitj.ac.in.example.com/x".data = true
      ↔ ∃ a b, a ++ "nitj.ac.in".data ++ b = "nitj.ac.in.example.com".data)
    ∧ is_college_url "http://[bad/x".data = false :=
  ⟨C10_is_college_url_contract.1 "http://nitj.ac.in.example.com/x".data
     ⟨"http".data, "nitj.ac.in.example.com".data, "/x".data, [], [], []⟩ rfl,
   C10_is_college_url_contract.2.1 "http://[bad/x".data rfl⟩

/-! ## C4: wave discipline — helper lemmas -/

theorem stepPreserves_refl (seen : List (Str × Option Str)) (rel : List (Str × Str)) :
    StepPreserves seen seen rel rel :=
  ⟨fun _ hk => Or.inl hk, fun _ h => h⟩

theorem stepPreserves_trans {s1 s2 s3 : List (Str × Option Str)}
    {r1 r2 r3 : List (Str × Str)}
    (h12 : StepPreserves s1 s2 r1 r2) (h23 : StepPreserves s2 s3 r2 r3) :
    StepPreserves s1 s3 r1 r3 := by
  obtain ⟨hr12, hs12⟩ := h12
  obtain ⟨hr23, hs23⟩ := h23
  refine ⟨?_, fun k hk => hs23 k (hs12 k hk)⟩
  intro k hk
  rcases hr23 k hk with hk2 | ⟨hnot2, hin3⟩
  · rcases hr12 k hk2 with hk1 | ⟨hnot1, hin2⟩
    · exact Or.inl hk1
    · exact Or.inr ⟨hnot1, hs23 k hin2⟩
  · exact Or.inr ⟨fun h1 => hnot2 (hs12 k h1), hin3⟩

theorem some_pair_eq {α β : Type} {a c : α} {b d : β}
    (h : (some (a, b) : Option (α × β)) = some (c, d)) : a = c ∧ b = d := by
  injection h with h1
  exact ⟨congrArg Prod.fst h1, congrArg Prod.snd h1⟩

theorem stepPreserves_record (seen : List (Str × Option Str)) (rel : List (Str × Str))
    (nu : Str) (v : Option Str) (full : Str)
    (hfresh : nu ∉ dictKeys seen) :
    StepPreserves seen (dictSet seen nu v) rel (dictSet rel nu full) := by
  constructor
  · intro k hk
    rcases (mem_dictKeys_dictSet rel nu k full).mp hk with h | hkeq
    · exact Or.inl h
    · exact Or.inr ⟨fun hm => hfresh (hkeq ▸ hm),
        (mem_dictKeys_dictSet seen nu k v).mpr (Or.inr hkeq)⟩
  · intro k hk
    exact (mem_dictKeys_dictSet seen nu k v).mpr (Or.inl hk)

theorem hrefStep_preserves (env : Env) (cur : Str) (ls : LinkState) (a : Anchor)
    (ls2 : LinkState) (ev : List Event)
    (h : hrefStep env cur ls a = some (ls2, ev)) :
    StepPreserves ls.seen_links ls2.seen_links ls.relevant_links ls2.relevant_links := by
  unfold hrefStep at h
  cases hj : pyUrljoin cur a.href with
  | none => rw [hj] at h; exact absurd h (by simp)
  | some full =>
    rw [hj] at h
    simp only [Option.bind_eq_bind, Option.some_bind] at h
    cases hn : normalize_url full none with
    | none => rw [hn] at h; exact absurd h (by simp)
    | some nu =>
      rw [hn] at h
      simp only [Option.bind_eq_bind, Option.some_bind] at h
      by_cases hmedia : (mediaExts.any fun e => endsWith e a.href) = true
      · rw [if_pos hmedia] at h
        obtain ⟨h1, _⟩ := some_pair_eq h
        rw [← h1]
        exact stepPreserves_refl _ _
      · rw [if_neg hmedia] at h
        by_cases hdoc : (docExts.any fun e => endsWith e a.href) = true
        · rw [if_pos hdoc] at h
          cases hd : handleDownloadable env cur full a.text ls.ddata ls.downloadables ls.nameCtr with
          | none => rw [hd] at h; exact absurd h (by simp)
          | some r =>
            obtain ⟨dd, dw, c, ev3⟩ := r
            rw [hd] at h
            simp only [Option.bind_eq_bind, Option.some_bind] at h
            obtain ⟨h1, _⟩ := some_pair_eq h
            rw [← h1]
            exact stepPreserves_refl _ _
        · rw [if_neg hdoc] at h
          by_cases hskip : (nu = [] ∨ nu ∈ dictKeys ls.seen_links)
          · rw [if_pos hskip] at h
            obtain ⟨h1, _⟩ := some_pair_eq h
            rw [← h1]
            exact stepPreserves_refl _ _
          · rw [if_neg hskip] at h
            cases hh : env.hashResult full with
            | none =>
              rw [hh] at h
              try dsimp only at h
              obtain ⟨h1, _⟩ := some_pair_eq h
              rw [← h1]
              exact stepPreserves_refl _ _
            | some hv =>
              rw [hh] at h
              try dsimp only at h
              by_cases hrec : hv ≠ [] ∧ some hv ∉ dictValues ls.seen_links
              · rw [if_pos hrec] at h
                obtain ⟨h1, _⟩ := some_pair_eq h
                rw [← h1]
                exact stepPreserves_record _ _ _ _ _ (fun hm => hskip (Or.inr hm))
              · rw [if_neg hrec] at h
                obtain ⟨h1, _⟩ := some_pair_eq h
                rw [← h1]
                exact stepPreserves_refl _ _

theorem processHrefLinks_preserves (env : Env) (cur : Str) :
    ∀ (anchors : List Anchor) (ls : LinkState),
      StepPreserves ls.seen_links (processHrefLinks env cur anchors ls).1.seen_links
        ls.relevant_links (processHrefLinks env cur anchors ls).1.relevant_links := by
  intro anchors
  induction anchors with
  | nil => intro ls; exact stepPreserves_refl _ _
  | cons a rest ih =>
    intro ls
    show StepPreserves _ (processHrefLinks env cur (a :: rest) ls).1.seen_links _ _
    unfold processHrefLinks
    cases hstep : hrefStep env cur ls a with
    | none => exact stepPreserves_refl _ _
    | some r =>
      obtain ⟨ls2, ev⟩ := r
      exact stepPreserves_trans (hrefStep_preserves env cur ls a ls2 ev hstep) (ih ls2)

theorem some_eq_imp {α : Type} {a b : α} (h : (some a : Option α) = some b) : a = b :=
  Option.some_inj.mp h

theorem some_triple_eq {α β γ : Type} {a d : α} {b e : β} {c f : γ}
    (h : (some (a, b, c) : Option (α × β × γ)) = some (d, e, f)) :
    a = d ∧ b = e ∧ c = f := by
  injection h with h1
  exact ⟨congrArg (fun q => q.1) h1, congrArg (fun q => q.2.1) h1,
    congrArg (fun q => q.2.2) h1⟩

theorem handleDownloadable_events (env : Env) (cur full t : Str)
    (dd : DownloadablesData) (dw : Downloadables) (c : Nat)
    (dd2 : DownloadablesData) (dw2 : Downloadables) (c2 : Nat) (ev : List Event)
    (h : handleDownloadable env cur full t dd dw c = some (dd2, dw2, c2, ev)) :
    ev = [] ∨ ev = [Event.downloadReq full] := by
  unfold handleDownloadable at h
  cases hg : get_name_from_url c full with
  | none => rw [hg] at h; exact absurd h (by simp)
  | some r =>
    obtain ⟨name, ctr2⟩ := r
    rw [hg] at h
    simp only [Option.bind_eq_bind, Option.some_bind] at h
    try dsimp only at h
    by_cases hhas : downloadablesHas (pyReplaceChar '/' '_' name) dw = true
    · rw [if_pos hhas] at h
      exact Or.inl (congrArg (fun q => q.2.2.2) (some_eq_imp h)).symm
    · rw [if_neg hhas] at h
      cases hdl : env.downloadResult full with
      | none =>
        rw [hdl] at h
        try dsimp only at h
        exact Or.inr (congrArg (fun q => q.2.2.2) (some_eq_imp h)).symm
      | some path =>
        rw [hdl] at h
        try dsimp only at h
        split_ifs at h <;>
          exact Or.inr (congrArg (fun q => q.2.2.2) (some_eq_imp h)).symm

theorem hrefStep_no_pageFetch (env : Env) (cur : Str) (ls : LinkState) (a : Anchor)
    (ls2 : LinkState) (ev : List Event)
    (h : hrefStep env cur ls a = some (ls2, ev)) :
    ∀ x, Event.pageFetch x ∉ ev := by
  unfold hrefStep at h
  cases hj : pyUrljoin cur a.href with
  | none => rw [hj] at h; exact absurd h (by simp)
  | some full =>
    rw [hj] at h
    simp only [Option.bind_eq_bind, Option.some_bind] at h
    cases hn : normalize_url full none with
    | none => rw [hn] at h; exact absurd h (by simp)
    | some nu =>
      rw [hn] at h
      simp only [Option.bind_eq_bind, Option.some_bind] at h
      by_cases hmedia : (mediaExts.any fun e => endsWith e a.href) = true
      · rw [if_pos hmedia] at h
        obtain ⟨_, h2⟩ := some_pair_eq h
        rw [← h2]
        intro x hx
        exact List.not_mem_nil _ hx
      · rw [if_neg hmedia] at h
        by_cases hdoc : (docExts.any fun e => endsWith e a.href) = true
        · rw [if_pos hdoc] at h
          cases hd : handleDownloadable env cur full a.text ls.ddata ls.downloadables ls.nameCtr with
          | none => rw [hd] at h; exact absurd h (by simp)
          | some r =>
            obtain ⟨dd, dw, c, ev3⟩ := r
            rw [hd] at h
            simp only [Option.bind_eq_bind, Option.some_bind] at h
            obtain ⟨_, h2⟩ := some_pair_eq h
            rw [← h2]
            rcases handleDownloadable_events env cur full a.text ls.ddata ls.downloadables
                ls.nameCtr dd dw c ev3 hd with h3 | h3 <;>
              rw [h3] <;> intro x hx <;> simp at hx
        · rw [if_neg hdoc] at h
          by_cases hskip : (nu = [] ∨ nu ∈ dictKeys ls.seen_links)
          · rw [if_pos hskip] at h
            obtain ⟨_, h2⟩ := some_pair_eq h
            rw [← h2]
            intro x hx
            exact List.not_mem_nil _ hx
          · rw [if_neg hskip] at h
            cases hh : env.hashResult full with
            | none =>
              rw [hh] at h
              try dsimp only at h
              obtain ⟨_, h2⟩ := some_pair_eq h
              rw [← h2]
              intro x hx
              simp at hx
            | some hv =>
              rw [hh] at h
              try dsimp only at h
              split_ifs at h <;>
                · obtain ⟨_, h2⟩ := some_pair_eq h
                  rw [← h2]
                  intro x hx
                  simp at hx

theorem processHrefLinks_no_pageFetch (env : Env) (cur : Str) :
    ∀ (anchors : List Anchor) (ls : LinkState) (x : Str),
      Event.pageFetch x ∉ (processHrefLinks env cur anchors ls).2.1 := by
  intro anchors
  induction anchors with
  | nil =>
    intro ls x hx
    exact List.not_mem_nil _ hx
  | cons a rest ih =>
    intro ls x
    show Event.pageFetch x ∉ (processHrefLinks env cur (a :: rest) ls).2.1
    unfold processHrefLinks
    cases hstep : hrefStep env cur ls a with
    | none =>
      intro hx
      exact List.not_mem_nil _ hx
    | some r =>
      obtain ⟨ls2, ev⟩ := r
      intro hx
      rcases List.mem_append.mp hx with hx1 | hx2
      · exact hrefStep_no_pageFetch env cur ls a ls2 ev hstep x hx1
      · exact ih ls2 x hx2

theorem dispatchUrl_spec (env : Env) (s : CrawlState) (url : Str)
    (s2 : CrawlState) (ev : List Event)
    (h : dispatchUrl env s url = some (s2, ev)) :
    StepPreserves s.seen_links s2.seen_links s.relevant_links s2.relevant_links
    ∧ (∀ x, Event.pageFetch x ∈ ev → x = url) := by
  unfold dispatchUrl at h
  cases hn : normalize_url url none with
  | none => rw [hn] at h; exact absurd h (by simp)
  | some nu =>
    rw [hn] at h
    simp only [Option.bind_eq_bind, Option.some_bind] at h
    by_cases hcol : is_college_url url = true
    · rw [if_pos hcol] at h
      by_cases hpdf : is_pdf_url url = true
      · rw [if_pos hpdf] at h
        cases hg : get_name_from_url s.nameCtr url with
        | none => rw [hg] at h; exact absurd h (by simp)
        | some r =>
          obtain ⟨name, ctr2⟩ := r
          rw [hg] at h
          simp only [Option.bind_eq_bind, Option.some_bind] at h
          try dsimp only at h
          by_cases hreg : pyReplaceChar '/' '_' name ∈ dictKeys s.downloadables.pdf
          · rw [if_pos hreg] at h
            obtain ⟨h1, h2⟩ := some_pair_eq h
            rw [← h1, ← h2]
            exact ⟨stepPreserves_refl _ _, fun x hx => absurd hx (List.not_mem_nil _)⟩
          · rw [if_neg hreg] at h
            cases hd : env.downloadResult url with
            | some path =>
              rw [hd] at h
              try dsimp only at h
              obtain ⟨h1, h2⟩ := some_pair_eq h
              rw [← h1, ← h2]
              exact ⟨stepPreserves_refl _ _, fun x hx => by simp at hx⟩
            | none =>
              rw [hd] at h
              try dsimp only at h
              obtain ⟨h1, h2⟩ := some_pair_eq h
              rw [← h1, ← h2]
              exact ⟨stepPreserves_refl _ _, fun x hx => by simp at hx⟩
      · rw [if_neg hpdf] at h
        by_cases hgd : is_google_drive_url url = true
        · rw [if_pos hgd] at h
          cases he : extract_google_drive_file_id url with
          | none =>
            rw [he] at h
            try dsimp only at h
            obtain ⟨h1, h2⟩ := some_pair_eq h
            rw [← h1, ← h2]
            exact ⟨stepPreserves_refl _ _, fun x hx => absurd hx (List.not_mem_nil _)⟩
          | some fid =>
            rw [he] at h
            try dsimp only at h
            by_cases hreg : pyReplaceChar '/' '_' fid ∈ dictKeys s.downloadables.pdf
            · rw [if_pos hreg] at h
              obtain ⟨h1, h2⟩ := some_pair_eq h
              rw [← h1, ← h2]
              exact ⟨stepPreserves_refl _ _, fun x hx => absurd hx (List.not_mem_nil _)⟩
            · rw [if_neg hreg] at h
              cases hd : env.downloadResult (google_drive_download_url fid) with
              | some path =>
                rw [hd] at h
                try dsimp only at h
                obtain ⟨h1, h2⟩ := some_pair_eq h
                rw [← h1, ← h2]
                exact ⟨stepPreserves_refl _ _, fun x hx => by simp at hx⟩
              | none =>
                rw [hd] at h
                try dsimp only at h
                obtain ⟨h1, h2⟩ := some_pair_eq h
                rw [← h1, ← h2]
                exact ⟨stepPreserves_refl _ _, fun x hx => by simp at hx⟩
        · rw [if_neg hgd] at h
          by_cases hcf : env.canFetch url = true
          · rw [if_pos hcf] at h
            cases hfo : env.fetchOutcome url with
            | none =>
              rw [hfo] at h
              try dsimp only at h
              obtain ⟨h1, h2⟩ := some_pair_eq h
              rw [← h1, ← h2]
              refine ⟨stepPreserves_refl _ _, fun x hx => ?_⟩
              simpa using hx
            | some pd =>
              rw [hfo] at h
              try dsimp only at h
              by_cases hraised :
                  (processHrefLinks env url pd.anchors
                    ⟨s.seen_links, s.relevant_links, s.downloadables,
                     DownloadablesData.empty, 1⟩).2.2 = true
              · rw [if_pos hraised] at h
                obtain ⟨h1, h2⟩ := some_pair_eq h
                rw [← h1, ← h2]
                constructor
                · exact processHrefLinks_preserves env url pd.anchors
                    ⟨s.seen_links, s.relevant_links, s.downloadables,
                     DownloadablesData.empty, 1⟩
                · intro x hx
                  rcases List.mem_append.mp hx with h3 | h3
                  · simpa using h3
                  · exact absurd h3 (processHrefLinks_no_pageFetch env url pd.anchors _ x)
              · rw [if_neg hraised] at h
                obtain ⟨h1, h2⟩ := some_pair_eq h
                rw [← h1, ← h2]
                constructor
                · exact processHrefLinks_preserves env url pd.anchors
                    ⟨s.seen_links, s.relevant_links, s.downloadables,
                     DownloadablesData.empty, 1⟩
                · intro x hx
                  rcases List.mem_append.mp hx with h3 | h3
                  · simpa using h3
                  · exact absurd h3 (processHrefLinks_no_pageFetch env url pd.anchors _ x)
          · rw [if_neg hcf] at h
            obtain ⟨h1, h2⟩ := some_pair_eq h
            rw [← h1, ← h2]
            exact ⟨stepPreserves_refl _ _, fun x hx => by simp at hx⟩
    · rw [if_neg hcol] at h
      obtain ⟨h1, h2⟩ := some_pair_eq h
      rw [← h1, ← h2]
      exact ⟨stepPreserves_refl _ _, fun x hx => absurd hx (List.not_mem_nil _)⟩

theorem waveFold_spec (env : Env) :
    ∀ (urls : List Str) (s s2 : CrawlState) (ev : List Event),
      waveFold env urls s = some (s2, ev) →
      StepPreserves s.seen_links s2.seen_links s.relevant_links s2.relevant_links
      ∧ (∀ x, Event.pageFetch x ∈ ev → x ∈ urls) := by
  intro urls
  induction urls with
  | nil =>
    intro s s2 ev h
    obtain ⟨h1, h2⟩ := some_pair_eq h
    rw [← h1, ← h2]
    exact ⟨stepPreserves_refl _ _, fun x hx => absurd hx (List.not_mem_nil _)⟩
  | cons u rest ih =>
    intro s s2 ev h
    unfold waveFold at h
    cases hd : dispatchUrl env s u with
    | none => rw [hd] at h; exact absurd h (by simp)
    | some r =>
      obtain ⟨s3, ev1⟩ := r
      rw [hd] at h
      simp only [Option.bind_eq_bind, Option.some_bind] at h
      cases hw : waveFold env rest s3 with
      | none => rw [hw] at h; exact absurd h (by simp)
      | some r2 =>
        obtain ⟨s4, ev2⟩ := r2
        rw [hw] at h
        simp only [Option.bind_eq_bind, Option.some_bind] at h
        obtain ⟨h1, h2⟩ := some_pair_eq h
        rw [← h1, ← h2]
        obtain ⟨hp1, he1⟩ := dispatchUrl_spec env s u s3 ev1 hd
        obtain ⟨hp2, he2⟩ := ih s3 s4 ev2 hw
        refine ⟨stepPreserves_trans hp1 hp2, fun x hx => ?_⟩
        rcases List.mem_append.mp hx with h3 | h3
        · rw [he1 x h3]
          exact List.mem_cons_self u rest
        · exact List.mem_cons_of_mem u (he2 x h3)

/-- C4: wave discipline.  Its first part: on the non-skipped seed path every
frontier key was either already in the frontier or is recorded in
`seen_links` by the time it is inserted.  Its second part: in every wave —
which iterates over the snapshot taken after clearing the live frontier —
every key inserted into the next frontier is recorded in `seen_links`, was
absent from `seen_links` (hence checked) and from the processed snapshot at
wave start, and only snapshot entries are ever page-fetched, so a link
discovered during a wave is never processed in that same wave. -/
theorem C4_wave_discipline :
    (∀ env s url s2 ev, seedPhase env s url = some (s2, ev, false) →
       ∀ k, k ∈ dictKeys s2.relevant_links →
         k ∈ dictKeys s.relevant_links ∨ k ∈ dictKeys s2.seen_links)
    ∧ (∀ env s, (∀ k, k ∈ dictKeys s.relevant_links → k ∈ dictKeys s.seen_links) →
       FrontierWaveInv env s) := by
  constructor
  · intro env s url s2 ev h k hk
    unfold seedPhase at h
    cases hn : normalize_url url none with
    | none => rw [hn] at h; exact absurd h (by simp)
    | some nu =>
      rw [hn] at h
      simp only [Option.bind_eq_bind, Option.some_bind] at h
      by_cases h1 : nu ∈ dictKeys s.seen_links
      · rw [if_pos h1] at h
        obtain ⟨-, -, h3⟩ := some_triple_eq h
        exact absurd h3 (by simp)
      · rw [if_neg h1] at h
        by_cases h2 : env.hashResult url ∈ dictValues s.seen_links
        · rw [if_pos h2] at h
          obtain ⟨-, -, h3⟩ := some_triple_eq h
          exact absurd h3 (by simp)
        · rw [if_neg h2] at h
          obtain ⟨h3, -, -⟩ := some_triple_eq h
          rw [← h3] at hk
          rcases (mem_dictKeys_dictSet s.relevant_links nu k url).mp hk with h4 | h4
          · exact Or.inl h4
          · refine Or.inr ?_
            rw [← h3]
            exact (mem_dictKeys_dictSet s.seen_links nu k (env.hashResult url)).mpr (Or.inr h4)
  · intro env s hsub s2 ev hrun
    obtain ⟨hp, he⟩ := waveFold_spec env (dictValues s.relevant_links)
      { s with relevant_links := [] } s2 ev hrun
    refine ⟨fun k hk => ?_, he⟩
    rcases hp.1 k hk with h1 | ⟨h2, h3⟩
    · exact absurd h1 (List.not_mem_nil _)
    · exact ⟨h3, h2, fun h4 => h2 (hsub k h4)⟩

/-- Witness for C4: a one-entry frontier whose key is recorded in
`seen_links` satisfies the wave invariant. -/
theorem C4_wave_discipline_witness :
    (∀ k, k ∈ dictKeys stWave.relevant_links → k ∈ dictKeys stWave.seen_links)
    ∧ FrontierWaveInv envQuiet stWave :=
  ⟨fun _ hk => hk, C4_wave_discipline.2 envQuiet stWave (fun _ hk => hk)⟩

/-! ## C7: the normalization contract — character and list lemmas -/

theorem char_toNat_ofNat (n : Nat) (h : n < 0xd800) : (Char.ofNat n).toNat = n := by
  simp only [Char.ofNat, Nat.isValidChar]
  rw [dif_pos (Or.inl h)]
  simp [Char.ofNatAux, Char.toNat, UInt32.toNat, BitVec.toNat_ofNatLt]

theorem lowerChar_eq_self (c : Char) (h : ¬(65 ≤ c.toNat ∧ c.toNat ≤ 90)) :
    lowerChar c = c := if_neg h

theorem lowerChar_idem (c : Char) : lowerChar (lowerChar c) = lowerChar c := by
  by_cases h : 65 ≤ c.toNat ∧ c.toNat ≤ 90
  · have ht : (lowerChar c).toNat = c.toNat + 32 := by
      unfold lowerChar
      rw [if_pos h]
      exact char_toNat_ofNat _ (by omega)
    exact lowerChar_eq_self _ (by rw [ht]; omega)
  · rw [lowerChar_eq_self c h]
    exact lowerChar_eq_self c h

theorem pyLower_eq_self_of_sublist {l s : Str} (h : l.Sublist (pyLower s)) :
    pyLower l = l := by
  have hc : ∀ c ∈ l, lowerChar c = c := by
    intro c hcl
    obtain ⟨c0, -, hc0⟩ := List.mem_map.mp (h.subset hcl)
    rw [← hc0]
    exact lowerChar_idem c0
  calc pyLower l = l.map id := List.map_congr_left hc
    _ = l := List.map_id l

theorem pyLower_idem (s : Str) : pyLower (pyLower s) = pyLower s :=
  pyLower_eq_self_of_sublist (List.Sublist.refl _)

theorem splitFirst_eq (c : Char) :
    ∀ (s a b : Str), splitFirst c s = some (a, b) → a ++ c :: b = s := by
  intro s
  induction s with
  | nil => intro a b h; exact absurd h (by simp [splitFirst])
  | cons x xs ih =>
    intro a b h
    unfold splitFirst at h
    by_cases hx : x = c
    · rw [if_pos hx] at h
      obtain ⟨h1, h2⟩ := some_pair_eq h
      rw [← h1, ← h2, hx]
      rfl
    · rw [if_neg hx] at h
      cases hs : splitFirst c xs with
      | none => rw [hs] at h; exact absurd h (by simp)
      | some p =>
        obtain ⟨a0, b0⟩ := p
        rw [hs] at h
        rw [Option.map_some'] at h
        obtain ⟨h1, h2⟩ := some_pair_eq h
        rw [← h1, ← h2, List.cons_append, ih a0 b0 hs]

theorem splitFirst_snd_sublist (c : Char) (s a b : Str)
    (h : splitFirst c s = some (a, b)) : b.Sublist s := by
  rw [← splitFirst_eq c s a b h]
  exact (List.sublist_cons_self c b).trans (List.sublist_append_right a (c :: b))

theorem splitScheme_snd_sublist (s : Str) : (splitScheme s).2.Sublist s := by
  unfold splitScheme
  cases hs : splitFirst ':' s with
  | none => exact List.Sublist.refl s
  | some p =>
    obtain ⟨before, after⟩ := p
    dsimp only
    by_cases hc : before ≠ [] ∧ (before.headD ' ').isAlpha ∧ before.all isSchemeChar
    · rw [if_pos hc]
      exact splitFirst_snd_sublist ':' s before after hs
    · rw [if_neg hc]

theorem splitScheme_fst_lower (s : Str) : pyLower (splitScheme s).1 = (splitScheme s).1 := by
  unfold splitScheme
  cases hs : splitFirst ':' s with
  | none => rfl
  | some p =>
    obtain ⟨before, after⟩ := p
    dsimp only
    by_cases hc : before ≠ [] ∧ (before.headD ' ').isAlpha ∧ before.all isSchemeChar
    · rw [if_pos hc]
      exact pyLower_idem before
    · rw [if_neg hc]
      rfl

theorem pyUrlsplit_netloc_scheme (u : Str) (p : UrlParts) (h : pyUrlsplit u = some p) :
    p.netloc.Sublist u ∧ pyLower p.scheme = p.scheme := by
  unfold pyUrlsplit at h
  try dsimp only at h
  by_cases ht : ((splitScheme u).2.take 2 = "//".data)
  · rw [if_pos ht] at h
    try dsimp only at h
    by_cases hok : (((splitScheme u).2.drop 2).takeWhile (fun c => ¬ netlocDelim c)).contains '['
        == (((splitScheme u).2.drop 2).takeWhile (fun c => ¬ netlocDelim c)).contains ']'
    · rw [if_pos hok] at h
      obtain rfl := (some_eq_imp h).symm
      constructor
      · exact ((List.takeWhile_sublist _).trans (List.drop_sublist _ _)).trans
          (splitScheme_snd_sublist u)
      · exact splitScheme_fst_lower u
    · rw [if_neg hok] at h
      exact absurd h (by simp)
  · rw [if_neg ht] at h
    try dsimp only at h
    obtain rfl := (some_eq_imp h).symm
    exact ⟨List.nil_sublist u, splitScheme_fst_lower u⟩

theorem pyUrlparse_netloc_scheme (u : Str) (p : UrlParts) (h : pyUrlparse u = some p) :
    p.netloc.Sublist u ∧ pyLower p.scheme = p.scheme := by
  unfold pyUrlparse at h
  cases hs : pyUrlsplit u with
  | none => rw [hs] at h; exact absurd h (by simp)
  | some q =>
    rw [hs, Option.map_some'] at h
    obtain rfl := (some_eq_imp h).symm
    obtain ⟨h1, h2⟩ := pyUrlsplit_netloc_scheme u q hs
    by_cases hc : q.path.contains ';' = true
    · rw [if_pos hc]
      exact ⟨h1, h2⟩
    · rw [if_neg hc]
      exact ⟨h1, h2⟩

theorem startsWith_dropWhile_self (c : Char) :
    ∀ l : Str, startsWith [c] (l.dropWhile (· = c)) = false := by
  intro l
  induction l with
  | nil => rfl
  | cons x xs ih =>
    by_cases hx : x = c
    · rw [List.dropWhile_cons_of_pos (by simp [hx])]
      exact ih
    · rw [List.dropWhile_cons_of_neg (by simp [hx])]
      show (decide (c = x) && startsWith [] xs) = false
      rw [decide_eq_false (fun h => hx h.symm)]
      rfl

theorem endsWith_rstripChar (c : Char) (s : Str) :
    endsWith [c] (rstripChar c s) = false := by
  unfold endsWith rstripChar
  rw [List.reverse_reverse]
  exact startsWith_dropWhile_self c s.reverse

/-! ## C7: the Python string order and `sorted` -/

theorem strLt_irrefl : ∀ a : Str, strLt a a = false := by
  intro a
  induction a with
  | nil => rfl
  | cons x xs ih =>
    unfold strLt
    rw [if_pos rfl]
    exact ih

theorem strLt_asymm : ∀ a b : Str, strLt a b = true → strLt b a = false := by
  intro a
  induction a with
  | nil =>
    intro b h
    cases b with
    | nil => exact absurd h (by simp [strLt])
    | cons y ys => rfl
  | cons x xs ih =>
    intro b h
    cases b with
    | nil => exact absurd h (by simp [strLt])
    | cons y ys =>
      unfold strLt at h ⊢
      by_cases hxy : x = y
      · rw [if_pos hxy] at h
        rw [if_pos hxy.symm]
        exact ih ys h
      · rw [if_neg hxy] at h
        rw [if_neg (fun hyx => hxy hyx.symm)]
        rw [decide_eq_true_eq] at h
        exact decide_eq_false (Nat.lt_asymm h)

theorem strLt_trans : ∀ a b c : Str, strLt a b = true → strLt b c = true → strLt a c = true := by
  intro a
  induction a with
  | nil =>
    intro b c hab hbc
    cases b with
    | nil => exact absurd hab (by simp [strLt])
    | cons y ys =>
      cases c with
      | nil => exact absurd hbc (by simp [strLt])
      | cons z zs => rfl
  | cons x xs ih =>
    intro b c hab hbc
    cases b with
    | nil => exact absurd hab (by simp [strLt])
    | cons y ys =>
      cases c with
      | nil => exact absurd hbc (by simp [strLt])
      | cons z zs =>
        unfold strLt at hab hbc ⊢
        by_cases hxy : x = y
        · rw [if_pos hxy] at hab
          by_cases hyz : y = z
          · rw [if_pos hyz] at hbc
            rw [if_pos (hxy.trans hyz)]
            exact ih ys zs hab hbc
          · rw [if_neg hyz] at hbc
            rw [decide_eq_true_eq] at hbc
            have hxz : ¬ x = z := fun he => hyz (by rw [← hxy, he])
            rw [if_neg hxz, decide_eq_true_eq, hxy]
            exact hbc
        · rw [if_neg hxy] at hab
          rw [decide_eq_true_eq] at hab
          by_cases hyz : y = z
          · have hxz : ¬ x = z := fun he => hxy (by rw [he, ← hyz])
            rw [if_neg hxz, decide_eq_true_eq, ← hyz]
            exact hab
          · rw [if_neg hyz] at hbc
            rw [decide_eq_true_eq] at hbc
            have hlt : x.toNat < z.toNat := Nat.lt_trans hab hbc
            have hxz : ¬ x = z := fun he => Nat.lt_irrefl _ (he ▸ hlt)
            rw [if_neg hxz, decide_eq_true_eq]
            exact hlt

theorem strLt_connex : ∀ a b : Str, strLt a b = false → strLt b a = false → a = b := by
  intro a
  induction a with
  | nil =>
    intro b hab _
    cases b with
    | nil => rfl
    | cons y ys => exact absurd hab (by simp [strLt])
  | cons x xs ih =>
    intro b hab hba
    cases b with
    | nil => exact absurd hba (by simp [strLt])
    | cons y ys =>
      unfold strLt at hab hba
      by_cases hxy : x = y
      · rw [if_pos hxy] at hab
        rw [if_pos hxy.symm] at hba
        rw [hxy, ih ys hab hba]
      · rw [if_neg hxy, decide_eq_false_iff_not] at hab
        rw [if_neg (fun hyx => hxy hyx.symm), decide_eq_false_iff_not] at hba
        have : x.toNat = y.toNat := Nat.le_antisymm (Nat.le_of_not_lt hba) (Nat.le_of_not_lt hab)
        exact absurd (Char.ext (UInt32.ext this)) hxy

theorem pairLt_iff (a b : Str × Str) :
    pairLt a b = true ↔ (strLt a.1 b.1 = true ∨ (a.1 = b.1 ∧ strLt a.2 b.2 = true)) := by
  unfold pairLt
  rw [Bool.or_eq_true, Bool.and_eq_true, decide_eq_true_eq]

theorem pairLt_asymm (a b : Str × Str) (h : pairLt a b = true) : pairLt b a = false := by
  rw [pairLt_iff] at h
  rw [← Bool.not_eq_true, pairLt_iff, not_or]
  rcases h with h | ⟨h1, h2⟩
  · refine ⟨?_, ?_⟩
    · rw [strLt_asymm _ _ h]
      simp
    · rintro ⟨hk, -⟩
      rw [hk, strLt_irrefl] at h
      exact Bool.false_ne_true h
  · refine ⟨?_, ?_⟩
    · rw [h1, strLt_irrefl]
      simp
    · rintro ⟨-, hv⟩
      rw [strLt_asymm _ _ h2] at hv
      exact Bool.false_ne_true hv

theorem pairLt_negtrans (a b c : Str × Str)
    (hba : pairLt b a = false) (hcb : pairLt c b = false) : pairLt c a = false := by
  rw [← Bool.not_eq_true, pairLt_iff, not_or] at hba hcb ⊢
  obtain ⟨hba1, hba2⟩ := hba
  obtain ⟨hcb1, hcb2⟩ := hcb
  have hcb1f : strLt c.1 b.1 = false := Bool.eq_false_iff.mpr hcb1
  refine ⟨?_, ?_⟩
  · intro hca
    cases hbc : strLt b.1 c.1 with
    | false =>
      have hk : c.1 = b.1 := strLt_connex _ _ hcb1f hbc
      rw [hk] at hca
      exact hba1 hca
    | true =>
      exact hba1 (strLt_trans _ _ _ hbc hca)
  · rintro ⟨hk, hv⟩
    have hbc1f : strLt b.1 c.1 = false := by
      cases hbc : strLt b.1 c.1 with
      | false => rfl
      | true =>
        rw [hk] at hbc
        exact absurd hbc (fun hh => hba1 hh)
    have hk1 : c.1 = b.1 := strLt_connex _ _ hcb1f hbc1f
    have hk2 : b.1 = a.1 := by rw [← hk1, hk]
    have hv_cb : ¬ strLt c.2 b.2 = true := fun hh => hcb2 ⟨hk1, hh⟩
    have hv_cbf : strLt c.2 b.2 = false := Bool.eq_false_iff.mpr hv_cb
    cases hbc2 : strLt b.2 c.2 with
    | false =>
      have he : c.2 = b.2 := strLt_connex _ _ hv_cbf hbc2
      rw [he] at hv
      exact hba2 ⟨hk2, hv⟩
    | true =>
      exact hba2 ⟨hk2, strLt_trans _ _ _ hbc2 hv⟩

theorem mem_insertPair (x y : Str × Str) :
    ∀ l, y ∈ insertPair x l ↔ y = x ∨ y ∈ l := by
  intro l
  induction l with
  | nil => simp [insertPair]
  | cons z zs ih =>
    unfold insertPair
    by_cases hz : pairLt z x = true
    · rw [if_pos hz]
      rw [List.mem_cons, ih, List.mem_cons]
      tauto
    · rw [if_neg hz]
      rw [List.mem_cons, List.mem_cons]

theorem pairwise_insertPair (x : Str × Str) :
    ∀ l, l.Pairwise (fun a b => pairLt b a = false) →
      (insertPair x l).Pairwise (fun a b => pairLt b a = false) := by
  intro l
  induction l with
  | nil =>
    intro _
    exact List.pairwise_singleton _ x
  | cons z zs ih =>
    intro hp
    unfold insertPair
    obtain ⟨hz1, hz2⟩ := List.pairwise_cons.mp hp
    by_cases hz : pairLt z x = true
    · rw [if_pos hz]
      refine List.pairwise_cons.mpr ⟨?_, ih hz2⟩
      intro w hw
      rcases (mem_insertPair x w zs).mp hw with rfl | hw2
      · exact pairLt_asymm z w hz
      · exact hz1 w hw2
    · rw [if_neg hz]
      refine List.pairwise_cons.mpr ⟨?_, hp⟩
      intro w hw
      rcases List.mem_cons.mp hw with rfl | hw2
      · exact Bool.eq_false_iff.mpr hz
      · exact pairLt_negtrans x z w (Bool.eq_false_iff.mpr hz) (hz1 w hw2)

theorem sortPairs_pairwise (l : List (Str × Str)) :
    (pySortPairs l).Pairwise (fun a b => pairLt b a = false) := by
  unfold pySortPairs
  induction l with
  | nil => exact List.Pairwise.nil
  | cons x xs ih => exact pairwise_insertPair x _ ih

theorem mem_sortPairs (y : Str × Str) (l : List (Str × Str)) :
    y ∈ pySortPairs l ↔ y ∈ l := by
  unfold pySortPairs
  induction l with
  | nil => simp
  | cons x xs ih =>
    rw [List.foldr_cons, mem_insertPair, ih, List.mem_cons]

theorem sortPairs_key_sorted (l : List (Str × Str)) :
    (pySortPairs l).Pairwise (fun a b => strLt b.1 a.1 = false) := by
  refine (sortPairs_pairwise l).imp ?_
  intro a b h
  rw [← Bool.not_eq_true, pairLt_iff, not_or] at h
  exact Bool.eq_false_iff.mpr h.1

/-! ## C7: the normalization contract -/

theorem normSchemeOf_ne_https (sch : Str) : normSchemeOf sch ≠ "https".data := by
  unfold normSchemeOf
  by_cases h : sch = "https".data
  · rw [if_pos h]
    decide
  · rw [if_neg h]
    exact h

theorem normalizeAbsolute_shape (u : Str) : NormalizedShape u := by
  intro p hp
  obtain ⟨hnl, hsch⟩ := pyUrlparse_netloc_scheme (pyLower u) p hp
  refine ⟨?_, hsch, pyLower_eq_self_of_sublist hnl, normSchemeOf_ne_https p.scheme,
    endsWith_rstripChar '/' p.path, sortPairs_key_sorted _, ?_⟩
  · unfold normalizeAbsolute
    rw [hp, Option.map_some']
    rfl
  · intro kv hkv
    exact of_decide_eq_true (List.mem_filter.mp ((mem_sortPairs kv _).mp hkv)).2

/-- C7: the `normalize_url` contract.  Without a base the function is the
absolute normalizer; a relative URL (empty parsed netloc) with a nonempty
base is resolved through `urljoin` first; the absolute normalizer rebuilds
the URL from the parse of its lower-cased text with `https` collapsed to
`http`, lower-case scheme and host, trailing slashes stripped from the path,
tracking parameters removed, the remaining query pairs key-sorted, and the
fragment (and params) discarded — and on the concrete scenario,
`http://site.edu/a` and `http://site.edu/a?utm_source=x` normalize to the
identical key. -/
theorem C7_normalize_url_contract :
    (∀ u p, pyUrlparse u = some p → normalize_url u none = normalizeAbsolute u)
    ∧ (∀ u b p, pyUrlparse u = some p → p.netloc = [] → b ≠ [] →
        normalize_url u (some b) = (pyUrljoin b u).bind normalizeAbsolute)
    ∧ (∀ u, NormalizedShape u)
    ∧ pyUrljoin "http://host/x/y".data "a/b".data = some "http://host/x/a/b".data
    ∧ normalize_url "http://site.edu/a".data none = some "http://site.edu/a".data
    ∧ normalize_url "http://site.edu/a?utm_source=x".data none = some "http://site.edu/a".data
    ∧ normalize_url "HTTPS://Site.EDU/A/".data none = some "http://site.edu/a".data
    ∧ normalize_url "http://h/p#frag".data none = some "http://h/p".data
    ∧ normalize_url "http://h/p?b=2&a=1".data none = some "http://h/p?a=1&b=2".data := by
  refine ⟨?_, ?_, normalizeAbsolute_shape, rfl, rfl, rfl, rfl, rfl, rfl⟩
  · intro u p hp
    unfold normalize_url
    rw [hp]
    simp only [Option.bind_eq_bind, Option.some_bind]
  · intro u b p hp hnet hb
    unfold normalize_url
    rw [hp]
    simp only [Option.bind_eq_bind, Option.some_bind]
    rw [if_pos ⟨hnet, hb⟩]

/-- Witness for C7: the contract applied to concrete URLs — the no-base
path, a relative reference joined against a base, and the component shape of
a mixed-case `https` URL. -/
theorem C7_normalize_url_contract_witness :
    normalize_url "http://site.edu/a?x=1".data none =
      normalizeAbsolute "http://site.edu/a?x=1".data
    ∧ normalize_url "a/b".data (some "http://host/x/y".data) =
        (pyUrljoin "http://host/x/y".data "a/b".data).bind normalizeAbsolute
    ∧ NormalizedShape "HTTPS://Site.EDU/A/".data :=
  ⟨C7_normalize_url_contract.1 "http://site.edu/a?x=1".data
     ⟨"http".data, "site.edu".data, "/a".data, [], "x=1".data, []⟩ rfl,
   C7_normalize_url_contract.2.1 "a/b".data "http://host/x/y".data
     ⟨[], [], "a/b".data, [], [], []⟩ rfl rfl (by decide),
   C7_normalize_url_contract.2.2.1 "HTTPS://Site.EDU/A/".data⟩

end Crawler
